import Mathlib

set_option maxHeartbeats 1600000
set_option linter.unnecessarySeqFocus false

namespace NousSwe

/-!
Shallow embedding of the code-editing workflow of `src/swe/codeEditingAgent.ts`
and the file-argument handling of `src/swe/codeEditor.ts`.

External collaborators (process execution, version control, the external
editor, the error analyzer, file selection, generative services) are modelled
as a deterministic oracle `Env` whose per-kind results are indexed by call
counters, and every externally visible action is recorded in an event trace.
JavaScript semantics relevant to the source are kept: string/array truthiness,
`null` interpolation in template literals, and the `TypeError` raised when a
field of `null` is dereferenced.
-/

structure CommandResult where
  exitCode : Nat
  stdout : String
  stderr : String
  deriving Repr, DecidableEq

/-- Modelled from the spec: the ErrorAnalyzer Diagnosis (the
`CompileErrorAnalysis` produced by `analyzeCompileErrors` in
`#swe/analyzeCompileErrors`, which is outside `src/`): optional additional
file paths and optional package names.  Only the two fields that
`runCodeEditWorkflow` reads are kept. -/
structure CompileErrorAnalysis where
  additionalFiles : Option (List String)
  installPackages : Option (List String)
  deriving Repr, DecidableEq

structure SelectedFile where
  path : String
  deriving Repr, DecidableEq

structure SelectFilesResponse where
  primaryFiles : List SelectedFile
  secondaryFiles : List SelectedFile
  deriving Repr, DecidableEq

/-- `ProjectInfo` from `./projectDetection`: base directory, compile command,
optional static-analysis command, optional test command. -/
structure ProjectInfo where
  baseDir : String
  compile : String
  staticAnalysis : Option String
  test : Option String
  deriving Repr, DecidableEq

/-- JavaScript truthiness of a nullable string: `null`/`undefined` and the
empty string are falsy. -/
def truthy : Option String → Bool
  | none => false
  | some s => !s.isEmpty

/-- JavaScript template-literal interpolation of a nullable string
(`null` prints as "null"). -/
def interpNull (o : Option String) : String := o.getD "null"

/-- JavaScript template-literal interpolation of a possibly-undefined string
(`undefined` prints as "undefined"). -/
def interpUndef (o : Option String) : String := o.getD "undefined"

/-- Externally visible actions of one workflow run, in order. -/
inductive Event where
  | detect
  | selectFiles (requirements : String)
  | generateImplSpec
  | compileExec (cmd : String) (res : CommandResult)
  | editorInvoke (requirements : String) (files : List String)
  | vcsAddedFiles (files : List String)
  | installPackage (pkg : String)
  | analyze (diagnostic : String) (files : List String)
  | lintExec (cmd : String) (res : CommandResult)
  | commitAll (msg : String)
  | testExec (cmd : String) (res : CommandResult)
  | extractNames (summary : String) (files : List String)
  deriving Repr, DecidableEq

def Event.isCompile : Event → Bool
  | .compileExec _ _ => true
  | _ => false

def Event.isEditor : Event → Bool
  | .editorInvoke _ _ => true
  | _ => false

def Event.isLint : Event → Bool
  | .lintExec _ _ => true
  | _ => false

def Event.isCommit : Event → Bool
  | .commitAll _ => true
  | _ => false

def Event.isTest : Event → Bool
  | .testExec _ _ => true
  | _ => false

def Event.isSelect : Event → Bool
  | .selectFiles _ => true
  | _ => false

def Event.isExtract : Event → Bool
  | .extractNames _ _ => true
  | _ => false

/-- The deterministic oracle for all external collaborators.  Results of
repeated calls of the same kind are indexed by that kind's call counter. -/
structure Env where
  detected : List ProjectInfo
  selection : SelectFilesResponse
  implementationRequirements : String
  compileResult : Nat → CommandResult
  editorResult : Nat → Option String
  filesAdded : Nat → List String
  analysis : String → List String → CompileErrorAnalysis
  lintResult : Nat → CommandResult
  extractNamesResult : Nat → List String
  testResult : Nat → CommandResult

/-- Mutable state of one run: call counters, the accumulated working file
set (`initialSelectedFiles` in the source), and the event trace. -/
structure St where
  compiles : Nat
  editors : Nat
  vcsCalls : Nat
  lints : Nat
  extracts : Nat
  tests : Nat
  selected : List String
  trace : List Event
  deriving Repr, DecidableEq

def initSt : St := ⟨0, 0, 0, 0, 0, 0, [], []⟩

/-- The workflow computation: state passing plus JavaScript exceptions
carrying their `message` string. -/
def M (α : Type) : Type := St → Except String α × St

instance : Monad M where
  pure a := fun s => (Except.ok a, s)
  bind x f := fun s =>
    match x s with
    | (Except.ok a, s') => f a s'
    | (Except.error msg, s') => (Except.error msg, s')

def throwM {α : Type} (msg : String) : M α := fun s => (Except.error msg, s)

def tryCatchM {α : Type} (x : M α) (handler : String → M α) : M α := fun s =>
  match x s with
  | (Except.ok a, s') => (Except.ok a, s')
  | (Except.error msg, s') => handler msg s'

def getM : M St := fun s => (Except.ok s, s)

def setM (s' : St) : M Unit := fun _ => (Except.ok (), s')

def modifyM (f : St → St) : M Unit := fun s => (Except.ok (), f s)

@[simp] theorem pure_apply {α : Type} (a : α) (s : St) :
    (pure a : M α) s = (Except.ok a, s) := rfl

@[simp] theorem bind_apply {α β : Type} (x : M α) (f : α → M β) (s : St) :
    (x >>= f) s =
      match x s with
      | (Except.ok a, s') => f a s'
      | (Except.error msg, s') => (Except.error msg, s') := rfl

@[simp] theorem map_apply {α β : Type} (f : α → β) (x : M α) (s : St) :
    (f <$> x) s =
      match x s with
      | (Except.ok a, s') => (Except.ok (f a), s')
      | (Except.error msg, s') => (Except.error msg, s') := by
  show (x >>= fun a => pure (f a)) s = _
  cases h : x s with
  | mk r s' => cases r <;> simp [h]

@[simp] theorem throwM_apply {α : Type} (msg : String) (s : St) :
    (throwM msg : M α) s = (Except.error msg, s) := rfl

@[simp] theorem tryCatchM_apply {α : Type} (x : M α) (handler : String → M α) (s : St) :
    tryCatchM x handler s =
      match x s with
      | (Except.ok a, s') => (Except.ok a, s')
      | (Except.error msg, s') => handler msg s' := rfl

@[simp] theorem getM_apply (s : St) : getM s = (Except.ok s, s) := rfl

@[simp] theorem setM_apply (s' s : St) : setM s' s = (Except.ok (), s') := rfl

@[simp] theorem modifyM_apply (f : St → St) (s : St) :
    modifyM f s = (Except.ok (), f s) := rfl

theorem iteM_apply {α : Type} (c : Prop) [Decidable c] (x y : M α) (s : St) :
    (if c then x else y) s = if c then x s else y s := by
  split <;> rfl

/-! ## Embedding of `src/swe/codeEditingAgent.ts` -/

def MAX_ATTEMPTS : Nat := 2

def STATIC_ANALYSIS_MAX_ATTEMPTS : Nat := 2

/-- The XML-ish diagnostic string built by `CodeEditingAgent.compile`
(source lines 139-147). -/
def compileOutputXml (cmd stdout stderr : String) : String :=
  "<compile_output>\n\t<command>" ++ cmd ++ "</command>\n\t<stdout>\n\t" ++ stdout ++
    "\n\t</stdout>\n\t<stderr>\n\t" ++ stderr ++ "\n\t</stderr>\n</compile_output>"

/-- `CodeEditingAgent.compile` (source lines 132-154): execute the compile
command, throw the formatted output when the exit code is positive. -/
def compileM (env : Env) (pi : ProjectInfo) : M Unit := do
  let s ← getM
  let res := env.compileResult s.compiles
  setM { s with compiles := s.compiles + 1,
                trace := s.trace ++ [Event.compileExec pi.compile res] }
  let result := compileOutputXml pi.compile res.stdout res.stderr
  if res.exitCode > 0 then throwM result else pure ()

/-- The diagnostic string built by `runStaticAnalysis` (source line 164).
Note the source interpolates `projectInfo.compile`, not the static-analysis
command, into the command tag. -/
def staticAnalysisOutputXml (compileCmd stdout stderr : String) : String :=
  "<static_analysis_output><command>" ++ compileCmd ++ "</command><stdout></stdout>" ++
    stdout ++ "<stderr>" ++ stderr ++ "</stderr></static_analysis_output>"

/-- `CodeEditingAgent.runStaticAnalysis` (source lines 161-168). -/
def runStaticAnalysis (env : Env) (pi : ProjectInfo) : M Unit := do
  if !truthy pi.staticAnalysis then pure () else do
    let s ← getM
    let res := env.lintResult s.lints
    setM { s with lints := s.lints + 1,
                  trace := s.trace ++ [Event.lintExec (interpUndef pi.staticAnalysis) res] }
    let result := staticAnalysisOutputXml pi.compile res.stdout res.stderr
    if res.exitCode > 0 then throwM result else pure ()

/-- The diagnostic string built by `runTests` (source line 173). -/
def testOutputXml (testCmd stdout stderr : String) : String :=
  "<test_output><command>" ++ testCmd ++ "</command><stdout></stdout>" ++
    stdout ++ "<stderr>" ++ stderr ++ "</stderr></test_output>"

/-- `CodeEditingAgent.runTests` (source lines 170-177). -/
def runTests (env : Env) (pi : ProjectInfo) : M Unit := do
  if !truthy pi.test then pure () else do
    let s ← getM
    let res := env.testResult s.tests
    setM { s with tests := s.tests + 1,
                  trace := s.trace ++ [Event.testExec (interpUndef pi.test) res] }
    let result := testOutputXml (interpUndef pi.test) res.stdout res.stderr
    if res.exitCode > 0 then throwM result else pure ()

/-- `CodeEditor.editFilesToMeetRequirements` seen from the orchestrator: an
opaque editor invocation on a requirement text and a file list that either
succeeds or throws its combined output (source `codeEditor.ts` line 105).
The files are recorded as passed by the caller; the blank-entry filtering the
editor applies internally is modelled separately (`filterBlankFiles`). -/
def editFilesToMeetRequirementsM (env : Env) (requirements : String)
    (filesToEdit : List String) : M Unit := do
  let s ← getM
  let n := s.editors
  setM { s with editors := s.editors + 1,
                trace := s.trace ++ [Event.editorInvoke requirements filesToEdit] }
  match env.editorResult n with
  | none => pure ()
  | some msg => throwM msg

/-- `analyzeCompileErrors(compileErrorOutput, initialSelectedFiles)` as an
oracle call (the analyzer itself is the external ErrorAnalyzer collaborator). -/
def analyzeCompileErrorsM (env : Env) (diagnostic : String) (files : List String) :
    M CompileErrorAnalysis := do
  modifyM fun s => { s with trace := s.trace ++ [Event.analyze diagnostic files] }
  pure (env.analysis diagnostic files)

/-- `fileSystem.vcs.getFilesAddedInHeadCommit()` followed by
`initialSelectedFiles.push(...newFiles)` (source lines 87-88). -/
def recordCommitAddedFiles (env : Env) : M (List String) := do
  let s ← getM
  let newFiles := env.filesAdded s.vcsCalls
  setM { s with vcsCalls := s.vcsCalls + 1,
                trace := s.trace ++ [Event.vcsAddedFiles newFiles] }
  modifyM fun s' => { s' with selected := s'.selected ++ newFiles }
  pure newFiles

/-- `fileSystem.vcs.addAllTrackedAndCommit(message)`. -/
def addAllTrackedAndCommitM (msg : String) : M Unit :=
  modifyM fun s => { s with trace := s.trace ++ [Event.commitAll msg] }

/-- `CodeEditingAgent.extractFilenames` (source lines 208-219) as an oracle
call recording the summary text it was given. -/
def extractFilenamesM (env : Env) (summary : String) : M (List String) := do
  let s ← getM
  let files := env.extractNamesResult s.extracts
  setM { s with extracts := s.extracts + 1,
                trace := s.trace ++ [Event.extractNames summary files] }
  pure files

/-- `projectInfo.languageTools?.installPackage(packageName)` over the listed
packages (source lines 77-79). -/
def installAll : List String → M Unit
  | [] => pure ()
  | pkg :: rest => do
      modifyM fun s => { s with trace := s.trace ++ [Event.installPackage pkg] }
      installAll rest

/-- The `message` of the `TypeError` raised by line 76 of the source,
`if (errorAnalysis.installPackages)`, when `errorAnalysis` is `null`. -/
def nullInstallPackagesMessage : String :=
  "Cannot read properties of null (reading \x27installPackages\x27)"

/-- One iteration of the edit-compile `try` block (source lines 70-93).
`errorAnalysis` and `compileErrorOutput` are the loop-carried mutable
variables of lines 64-65; `i` is the loop index. -/
def editCompileAttempt (env : Env) (pi : ProjectInfo) (implementationRequirements : String)
    (errorAnalysis : Option CompileErrorAnalysis) (compileErrorOutput : Option String)
    (i : Nat) : M Unit := do
  let s ← getM
  let files := s.selected
  let editRequirements :=
    if errorAnalysis.isSome then
      implementationRequirements ++ "\nImmediate task: Fix the following compile errors:\n" ++
        interpNull compileErrorOutput
    else implementationRequirements
  let files :=
    match errorAnalysis with
    | some ea =>
        match ea.additionalFiles with
        | some extra => files ++ extra
        | none => files
    | none => files
  match errorAnalysis with
  | none =>
      -- line 76 reads `errorAnalysis.installPackages` without optional
      -- chaining; on a `null` analysis JavaScript raises a TypeError here.
      throwM nullInstallPackagesMessage
  | some ea => do
      (match ea.installPackages with
       | some pkgs => installAll pkgs
       | none => pure ())
      -- "Make sure the project compiles first" (source line 83)
      (if i == 0 then compileM env pi else pure ())
      editFilesToMeetRequirementsM env editRequirements files
      let _newFiles ← recordCommitAddedFiles env
      compileM env pi

/-- The bounded edit-compile retry loop (source lines 67-101), with the
`catch` block of lines 94-100.  `fuel` counts the remaining iterations and
`i` is the source loop index; success breaks with a cleared analysis. -/
def editCompileLoop (env : Env) (pi : ProjectInfo) (implementationRequirements : String) :
    Nat → Nat → Option CompileErrorAnalysis → Option String →
    M (Option CompileErrorAnalysis × Option String)
  | 0, _, errorAnalysis, compileErrorOutput => pure (errorAnalysis, compileErrorOutput)
  | Nat.succ fuel, i, errorAnalysis, compileErrorOutput =>
      tryCatchM
        (do
          editCompileAttempt env pi implementationRequirements errorAnalysis compileErrorOutput i
          pure ((none : Option CompileErrorAnalysis), compileErrorOutput))
        (fun msg => do
          let s ← getM
          let analysisRes ← analyzeCompileErrorsM env msg s.selected
          editCompileLoop env pi implementationRequirements fuel (i + 1)
            (some analysisRes) (some msg))

/-- The static-analysis bounded retry loop body (source lines 107-126). -/
def staticAnalysisAttempts (env : Env) (pi : ProjectInfo) (compileErrorOutput : Option String) :
    Nat → Nat → M Unit
  | 0, _ => pure ()
  | Nat.succ fuel, i =>
      tryCatchM
        (do
          runStaticAnalysis env pi
          addAllTrackedAndCommitM "Fix static analysis errors")
        (fun _msg => do
          -- "Commit any successful auto-fixes" (source line 115)
          addAllTrackedAndCommitM "Fix static analysis errors"
          if i == STATIC_ANALYSIS_MAX_ATTEMPTS - 1 then
            -- logger.warn(`Unable to fix static analysis errors: ...`)
            pure ()
          else do
            let staticErrorFiles ← extractFilenamesM env
              (interpNull compileErrorOutput ++ "\n\nExtract the filenames from the compile errors.")
            editFilesToMeetRequirementsM env
              ("Static analysis command: " ++ interpUndef pi.staticAnalysis ++ "\n" ++
                interpNull compileErrorOutput ++ "\nFix these static analysis errors")
              staticErrorFiles
            staticAnalysisAttempts env pi compileErrorOutput fuel (i + 1))

/-- The static-analysis stage guard (source line 105): run only when a
static-analysis command is configured (truthy). -/
def staticAnalysisPhase (env : Env) (pi : ProjectInfo)
    (compileErrorOutput : Option String) : M Unit :=
  if truthy pi.staticAnalysis then
    staticAnalysisAttempts env pi compileErrorOutput STATIC_ANALYSIS_MAX_ATTEMPTS 0
  else pure ()

/-- One `try` body of `testLoop` together with the retry recursion
(source lines 184-198). -/
def testAttempts (env : Env) (requirements : String) (pi : ProjectInfo) :
    Option CompileErrorAnalysis → Nat → M (Option CompileErrorAnalysis)
  | errorAnalysis, 0 => pure errorAnalysis
  | _, Nat.succ fuel =>
      tryCatchM
        (do
          let s ← getM
          let testRequirements := requirements ++
            "\nSome of the requirements may have already been implemented, so don\x27t duplicate any existing implementation meeting the requirements.\nWrite any additional tests that would be of value."
          editFilesToMeetRequirementsM env testRequirements s.selected
          compileM env pi
          runTests env pi
          pure (none : Option CompileErrorAnalysis))
        (fun msg => do
          let s ← getM
          let analysisRes ← analyzeCompileErrorsM env msg s.selected
          testAttempts env requirements pi (some analysisRes) fuel)

/-- `CodeEditingAgent.testLoop` (source lines 179-200): returns `null` when
no test command is configured, else runs the bounded retry and returns the
last analysis. -/
def testLoop (env : Env) (requirements : String) (pi : ProjectInfo) :
    M (Option CompileErrorAnalysis) :=
  if !truthy pi.test then pure none
  else testAttempts env requirements pi none MAX_ATTEMPTS

/-- Source lines 33-37: resolve the project info, failing unless detection
returns exactly one candidate. -/
def resolveProjectInfo (env : Env) (projectInfo? : Option ProjectInfo) : M ProjectInfo :=
  match projectInfo? with
  | some pi => pure pi
  | none => do
      modifyM fun s => { s with trace := s.trace ++ [Event.detect] }
      match env.detected with
      | [pi] => pure pi
      | _ => throwM "projectInfo array must have one item"

/-- The initial working file set: primary paths followed by secondary paths
(source lines 44-47). -/
def initialFilesOf (env : Env) : List String :=
  env.selection.primaryFiles.map SelectedFile.path ++
    env.selection.secondaryFiles.map SelectedFile.path

/-- Source lines 43-47: file selection; `initialSelectedFiles` is the primary
paths followed by the secondary paths. -/
def selectFilesPhase (env : Env) (requirements : String) : M (List String) := do
  modifyM fun s => { s with trace := s.trace ++ [Event.selectFiles requirements] }
  let filesResponse := env.selection
  let initialSelectedFiles :=
    filesResponse.primaryFiles.map SelectedFile.path ++
      filesResponse.secondaryFiles.map SelectedFile.path
  modifyM fun s => { s with selected := initialSelectedFiles }
  pure initialSelectedFiles

/-- Source lines 49-59: the single generative call producing the
implementation specification. -/
def implementationSpecPhase (env : Env) : M String := do
  modifyM fun s => { s with trace := s.trace ++ [Event.generateImplSpec] }
  pure env.implementationRequirements

/-- The workflow from file selection through the edit-compile loop
(source lines 43-101). -/
def workflowThroughCompileLoop (env : Env) (requirements : String) (pi : ProjectInfo) :
    M (Option CompileErrorAnalysis × Option String) := do
  let _initialSelectedFiles ← selectFilesPhase env requirements
  let implementationRequirements ← implementationSpecPhase env
  editCompileLoop env pi implementationRequirements MAX_ATTEMPTS 0 none none

/-- Source lines 103-129: `if (errorAnalysis) return;`, then the
static-analysis stage and the test loop (whose result the caller ignores).
`r` is the pair of loop-carried variables at the end of the edit-compile
loop. -/
def postCompileLoopPhase (env : Env) (requirements : String) (pi : ProjectInfo)
    (r : Option CompileErrorAnalysis × Option String) : M Unit :=
  match r.1 with
  | some _ => pure ()   -- `if (errorAnalysis) return;` (source line 103)
  | none => do
      staticAnalysisPhase env pi r.2
      let _ ← testLoop env requirements pi
      pure ()

/-- `CodeEditingAgent.runCodeEditWorkflow` (source lines 32-130). -/
def runCodeEditWorkflow (env : Env) (requirements : String)
    (projectInfo? : Option ProjectInfo) : M Unit := do
  let pi ← resolveProjectInfo env projectInfo?
  let r ← workflowThroughCompileLoop env requirements pi
  postCompileLoopPhase env requirements pi r

/-- A full run from the initial state. -/
def workflowRun (env : Env) (requirements : String) (projectInfo? : Option ProjectInfo) :
    Except String Unit × St :=
  runCodeEditWorkflow env requirements projectInfo? initSt

def workflowTrace (env : Env) (requirements : String) (projectInfo? : Option ProjectInfo) :
    List Event :=
  (workflowRun env requirements projectInfo?).2.trace

/-- The edit-compile loop outcome of a run: the analysis still set when the
loop ends (`none` when the loop cleared it, i.e. a compile succeeded). -/
def editCompileOutcome (env : Env) (requirements : String) (pi : ProjectInfo) :
    Option CompileErrorAnalysis :=
  match workflowThroughCompileLoop env requirements pi initSt with
  | (Except.ok r, _) => r.1
  | (Except.error _, _) => none

/-! ## Concrete runs used as witnesses and counterexamples -/

instance : DecidableEq (Except String Unit)
  | Except.ok (), Except.ok () => Decidable.isTrue rfl
  | Except.ok (), Except.error _ => Decidable.isFalse fun h => nomatch h
  | Except.error _, Except.ok () => Decidable.isFalse fun h => nomatch h
  | Except.error a, Except.error b =>
      match decEq a b with
      | Decidable.isTrue h => Decidable.isTrue (h ▸ rfl)
      | Decidable.isFalse h => Decidable.isFalse fun hh => h (by injection hh)

/-- A project with neither static analysis nor tests configured. -/
def piPlain : ProjectInfo := ⟨"dir", "tsc -b", none, none⟩

/-- An environment in which every external call succeeds. -/
def envOk : Env where
  detected := [piPlain]
  selection := ⟨[⟨"a.ts"⟩], []⟩
  implementationRequirements := "impl"
  compileResult := fun _ => ⟨0, "built", ""⟩
  editorResult := fun _ => none
  filesAdded := fun _ => []
  analysis := fun _ _ => ⟨none, none⟩
  lintResult := fun _ => ⟨0, "", ""⟩
  extractNamesResult := fun _ => []
  testResult := fun _ => ⟨0, "", ""⟩

/-- Like `envOk` but the compile command always fails with exit code 2. -/
def envFail : Env := { envOk with compileResult := fun _ => ⟨2, "boom", "errs"⟩ }

/-- Like `envOk` but detection finds no project. -/
def envAmbig : Env := { envOk with detected := [] }

/-- A project with a static-analysis command configured. -/
def piLint : ProjectInfo := { piPlain with staticAnalysis := some "eslint" }

/-- A run whose first static-analysis round fails with a distinctive
diagnostic while everything else succeeds. -/
def envLint : Env := { envOk with
  detected := [piLint]
  lintResult := fun n => if n == 0 then ⟨1, "LINT_PROBLEMS in xyz.ts", "le"⟩ else ⟨0, "", ""⟩
  extractNamesResult := fun _ => ["xyz.ts"] }

/-- A project with a test command configured. -/
def piTested : ProjectInfo := { piPlain with test := some "unit-test" }

/-- A run whose first test execution fails, with an analysis that names
`x.ts` for any diagnostic other than the round-one TypeError message. -/
def envTest : Env := { envOk with
  detected := [piTested]
  analysis := fun d _ =>
    if d == nullInstallPackagesMessage then ⟨none, none⟩ else ⟨some ["x.ts"], none⟩
  testResult := fun n => if n == 0 then ⟨1, "FAIL case X", ""⟩ else ⟨0, "", ""⟩ }

/-- The diagnostic text of the failing first test execution in `envTest`. -/
def failingTestOutput : String := testOutputXml "unit-test" "FAIL case X" ""

/-- A run in which the error analysis always names `b.ts` as an additional
file; the compile loop's one editor invocation therefore receives
`["a.ts", "b.ts"]`, but the file never enters the persistent working set. -/
def envGrow : Env := { envOk with
  detected := [piTested]
  analysis := fun _ _ => ⟨some ["b.ts"], none⟩ }

/-! ## Embedding of the file-argument handling in `src/swe/codeEditor.ts` -/

/-- Source line 36: `filesToEdit = filesToEdit.filter((file) => file?.trim().length);`.
Entries may be `null`/`undefined` (modelled as `none`); an entry is kept iff
it is non-null and its trimmed text is non-empty.  The kept entries are the
strings fed to the command line. -/
def filterBlankFiles (filesToEdit : List (Option String)) : List String :=
  filesToEdit.filterMap fun file =>
    match file with
    | none => none
    | some f => if f.trim.isEmpty then none else some f

/-- Source lines 79-81: the `aider` command line; each kept file is wrapped in
double quotes and the quoted names are space-separated. -/
def aiderCmd (modelArg llmHistoryFile messageFilePath : String)
    (filesToEdit : List (Option String)) : String :=
  "aider --no-check-update --yes " ++ modelArg ++ " --llm-history-file=\"" ++
    llmHistoryFile ++ "\" --message-file=" ++ messageFilePath ++ " " ++
    String.intercalate " "
      ((filterBlankFiles filesToEdit).map (fun file => "\"" ++ file ++ "\""))

/-! ## Characterization of the primitive actions -/

theorem compileM_apply (env : Env) (pi : ProjectInfo) (s : St) :
    compileM env pi s =
      ((if (env.compileResult s.compiles).exitCode > 0 then
          Except.error (compileOutputXml pi.compile (env.compileResult s.compiles).stdout
            (env.compileResult s.compiles).stderr)
        else Except.ok ()),
       { s with compiles := s.compiles + 1,
                trace := s.trace ++ [Event.compileExec pi.compile (env.compileResult s.compiles)] }) := by
  by_cases h : (env.compileResult s.compiles).exitCode > 0 <;> simp [compileM, h]

theorem runStaticAnalysis_skip (env : Env) (pi : ProjectInfo) (s : St)
    (hst : truthy pi.staticAnalysis = false) :
    runStaticAnalysis env pi s = (Except.ok (), s) := by
  simp [runStaticAnalysis, hst]

theorem runStaticAnalysis_apply (env : Env) (pi : ProjectInfo) (s : St)
    (hst : truthy pi.staticAnalysis = true) :
    runStaticAnalysis env pi s =
      ((if (env.lintResult s.lints).exitCode > 0 then
          Except.error (staticAnalysisOutputXml pi.compile (env.lintResult s.lints).stdout
            (env.lintResult s.lints).stderr)
        else Except.ok ()),
       { s with lints := s.lints + 1,
                trace := s.trace ++
                  [Event.lintExec (interpUndef pi.staticAnalysis) (env.lintResult s.lints)] }) := by
  by_cases h : (env.lintResult s.lints).exitCode > 0 <;> simp [runStaticAnalysis, hst, h]

theorem runTests_skip (env : Env) (pi : ProjectInfo) (s : St)
    (ht : truthy pi.test = false) :
    runTests env pi s = (Except.ok (), s) := by
  simp [runTests, ht]

theorem runTests_apply (env : Env) (pi : ProjectInfo) (s : St)
    (ht : truthy pi.test = true) :
    runTests env pi s =
      ((if (env.testResult s.tests).exitCode > 0 then
          Except.error (testOutputXml (interpUndef pi.test) (env.testResult s.tests).stdout
            (env.testResult s.tests).stderr)
        else Except.ok ()),
       { s with tests := s.tests + 1,
                trace := s.trace ++
                  [Event.testExec (interpUndef pi.test) (env.testResult s.tests)] }) := by
  by_cases h : (env.testResult s.tests).exitCode > 0 <;> simp [runTests, ht, h]

theorem editFilesToMeetRequirementsM_apply (env : Env) (req : String) (files : List String)
    (s : St) :
    editFilesToMeetRequirementsM env req files s =
      ((match env.editorResult s.editors with
        | none => Except.ok ()
        | some msg => Except.error msg),
       { s with editors := s.editors + 1,
                trace := s.trace ++ [Event.editorInvoke req files] }) := by
  cases h : env.editorResult s.editors <;> simp [editFilesToMeetRequirementsM, h]

theorem analyzeCompileErrorsM_apply (env : Env) (d : String) (files : List String) (s : St) :
    analyzeCompileErrorsM env d files s =
      (Except.ok (env.analysis d files),
       { s with trace := s.trace ++ [Event.analyze d files] }) := by
  simp [analyzeCompileErrorsM]

theorem recordCommitAddedFiles_apply (env : Env) (s : St) :
    recordCommitAddedFiles env s =
      (Except.ok (env.filesAdded s.vcsCalls),
       { s with vcsCalls := s.vcsCalls + 1,
                selected := s.selected ++ env.filesAdded s.vcsCalls,
                trace := s.trace ++ [Event.vcsAddedFiles (env.filesAdded s.vcsCalls)] }) := by
  simp [recordCommitAddedFiles]

theorem addAllTrackedAndCommitM_apply (msg : String) (s : St) :
    addAllTrackedAndCommitM msg s =
      (Except.ok (), { s with trace := s.trace ++ [Event.commitAll msg] }) := rfl

theorem extractFilenamesM_apply (env : Env) (summary : String) (s : St) :
    extractFilenamesM env summary s =
      (Except.ok (env.extractNamesResult s.extracts),
       { s with extracts := s.extracts + 1,
                trace := s.trace ++
                  [Event.extractNames summary (env.extractNamesResult s.extracts)] }) := by
  simp [extractFilenamesM]

theorem installAll_apply (pkgs : List String) (s : St) :
    installAll pkgs s =
      (Except.ok (), { s with trace := s.trace ++ pkgs.map Event.installPackage }) := by
  induction pkgs generalizing s with
  | nil => simp [installAll]
  | cons pkg rest ih => simp [installAll, ih]

/-! ## Trace predicates: a computation emits only events of a given kind -/

/-- every event the computation appends to the trace satisfies `p`. -/
def OnlyEmits {α : Type} (x : M α) (p : Event → Bool) : Prop :=
  ∀ s : St, ∃ t : List Event, (x s).2.trace = s.trace ++ t ∧ t.all p = true

theorem onlyEmits_pure {α : Type} (a : α) (p : Event → Bool) :
    OnlyEmits (pure a : M α) p :=
  fun s => ⟨[], by simp⟩

theorem onlyEmits_throwM {α : Type} (msg : String) (p : Event → Bool) :
    OnlyEmits (throwM msg : M α) p :=
  fun s => ⟨[], by simp⟩

theorem onlyEmits_getM (p : Event → Bool) : OnlyEmits getM p :=
  fun s => ⟨[], by simp⟩

theorem onlyEmits_bind {α β : Type} {x : M α} {f : α → M β} {p : Event → Bool}
    (hx : OnlyEmits x p) (hf : ∀ a, OnlyEmits (f a) p) : OnlyEmits (x >>= f) p := by
  intro s
  obtain ⟨t1, ht1, hp1⟩ := hx s
  cases hxs : x s with
  | mk r s' =>
    rw [hxs] at ht1
    cases r with
    | ok a =>
      obtain ⟨t2, ht2, hp2⟩ := hf a s'
      refine ⟨t1 ++ t2, ?_, ?_⟩
      · simp only [bind_apply, hxs]
        rw [ht2, ht1, List.append_assoc]
      · simp only [List.all_append, hp1, hp2, Bool.and_self]
    | error msg =>
      refine ⟨t1, ?_, hp1⟩
      simp only [bind_apply, hxs]
      exact ht1

theorem onlyEmits_tryCatchM {α : Type} {x : M α} {h : String → M α} {p : Event → Bool}
    (hx : OnlyEmits x p) (hh : ∀ msg, OnlyEmits (h msg) p) : OnlyEmits (tryCatchM x h) p := by
  intro s
  obtain ⟨t1, ht1, hp1⟩ := hx s
  cases hxs : x s with
  | mk r s' =>
    rw [hxs] at ht1
    cases r with
    | ok a =>
      refine ⟨t1, ?_, hp1⟩
      simp only [tryCatchM_apply, hxs]
      exact ht1
    | error msg =>
      obtain ⟨t2, ht2, hp2⟩ := hh msg s'
      refine ⟨t1 ++ t2, ?_, ?_⟩
      · simp only [tryCatchM_apply, hxs]
        rw [ht2, ht1, List.append_assoc]
      · simp only [List.all_append, hp1, hp2, Bool.and_self]

theorem onlyEmits_ite {α : Type} (c : Prop) [Decidable c] {x y : M α} {p : Event → Bool}
    (hx : OnlyEmits x p) (hy : OnlyEmits y p) : OnlyEmits (if c then x else y) p := by
  split <;> assumption

theorem onlyEmits_mono {α : Type} {x : M α} {p q : Event → Bool}
    (hx : OnlyEmits x p) (hpq : ∀ e, p e = true → q e = true) : OnlyEmits x q := by
  intro s
  obtain ⟨t, ht, hp⟩ := hx s
  refine ⟨t, ht, ?_⟩
  rw [List.all_eq_true] at hp ⊢
  exact fun e he => hpq e (hp e he)

theorem onlyEmits_of_single {α : Type} {x : M α} {p : Event → Bool}
    (ev : St → Event) (res : St → Except String α) (st : St → St)
    (hx : ∀ s, x s = (res s, st s)) (htr : ∀ s, (st s).trace = s.trace ++ [ev s])
    (hp : ∀ s, p (ev s) = true) : OnlyEmits x p := by
  intro s
  refine ⟨[ev s], ?_, ?_⟩
  · rw [hx s]
    exact htr s
  · simp [hp s]

theorem onlyEmits_modifyM {p : Event → Bool} {f : St → St} (t : St → List Event)
    (htr : ∀ s, (f s).trace = s.trace ++ t s) (hp : ∀ s, (t s).all p = true) :
    OnlyEmits (modifyM f) p :=
  fun s => ⟨t s, by simpa using htr s, hp s⟩

theorem onlyEmits_compileM (env : Env) (pi : ProjectInfo) {p : Event → Bool}
    (hp : ∀ cmd res, p (Event.compileExec cmd res) = true) :
    OnlyEmits (compileM env pi) p := by
  intro s
  refine ⟨[Event.compileExec pi.compile (env.compileResult s.compiles)], ?_, ?_⟩
  · rw [compileM_apply]
  · simp [hp]

theorem onlyEmits_runStaticAnalysis (env : Env) (pi : ProjectInfo) {p : Event → Bool}
    (hp : ∀ cmd res, p (Event.lintExec cmd res) = true) :
    OnlyEmits (runStaticAnalysis env pi) p := by
  intro s
  cases hst : truthy pi.staticAnalysis with
  | false =>
      refine ⟨[], ?_, rfl⟩
      rw [runStaticAnalysis_skip env pi s hst]
      simp
  | true =>
      refine ⟨[Event.lintExec (interpUndef pi.staticAnalysis) (env.lintResult s.lints)], ?_, ?_⟩
      · rw [runStaticAnalysis_apply env pi s hst]
      · simp [hp]

theorem onlyEmits_runTests (env : Env) (pi : ProjectInfo) {p : Event → Bool}
    (hp : ∀ cmd res, p (Event.testExec cmd res) = true) :
    OnlyEmits (runTests env pi) p := by
  intro s
  cases ht : truthy pi.test with
  | false =>
      refine ⟨[], ?_, rfl⟩
      rw [runTests_skip env pi s ht]
      simp
  | true =>
      refine ⟨[Event.testExec (interpUndef pi.test) (env.testResult s.tests)], ?_, ?_⟩
      · rw [runTests_apply env pi s ht]
      · simp [hp]

theorem onlyEmits_editFilesToMeetRequirementsM (env : Env) (req : String) (files : List String)
    {p : Event → Bool} (hp : ∀ r fs, p (Event.editorInvoke r fs) = true) :
    OnlyEmits (editFilesToMeetRequirementsM env req files) p := by
  intro s
  refine ⟨[Event.editorInvoke req files], ?_, ?_⟩
  · rw [editFilesToMeetRequirementsM_apply]
  · simp [hp]

theorem onlyEmits_analyzeCompileErrorsM (env : Env) (d : String) (files : List String)
    {p : Event → Bool} (hp : ∀ d' fs, p (Event.analyze d' fs) = true) :
    OnlyEmits (analyzeCompileErrorsM env d files) p := by
  intro s
  refine ⟨[Event.analyze d files], ?_, ?_⟩
  · rw [analyzeCompileErrorsM_apply]
  · simp [hp]

theorem onlyEmits_recordCommitAddedFiles (env : Env) {p : Event → Bool}
    (hp : ∀ fs, p (Event.vcsAddedFiles fs) = true) :
    OnlyEmits (recordCommitAddedFiles env) p := by
  intro s
  refine ⟨[Event.vcsAddedFiles (env.filesAdded s.vcsCalls)], ?_, ?_⟩
  · rw [recordCommitAddedFiles_apply]
  · simp [hp]

theorem onlyEmits_addAllTrackedAndCommitM (msg : String) {p : Event → Bool}
    (hp : p (Event.commitAll msg) = true) :
    OnlyEmits (addAllTrackedAndCommitM msg) p := by
  intro s
  refine ⟨[Event.commitAll msg], ?_, ?_⟩
  · rw [addAllTrackedAndCommitM_apply]
  · simp [hp]

theorem onlyEmits_extractFilenamesM (env : Env) (summary : String) {p : Event → Bool}
    (hp : ∀ sm fs, p (Event.extractNames sm fs) = true) :
    OnlyEmits (extractFilenamesM env summary) p := by
  intro s
  refine ⟨[Event.extractNames summary (env.extractNamesResult s.extracts)], ?_, ?_⟩
  · rw [extractFilenamesM_apply]
  · simp [hp]

theorem onlyEmits_installAll (pkgs : List String) {p : Event → Bool}
    (hp : ∀ pkg, p (Event.installPackage pkg) = true) :
    OnlyEmits (installAll pkgs) p := by
  intro s
  refine ⟨pkgs.map Event.installPackage, ?_, ?_⟩
  · rw [installAll_apply]
  · rw [List.all_eq_true]
    intro e he
    obtain ⟨pkg, _, rfl⟩ := List.mem_map.mp he
    exact hp pkg

/-- Events the edit-compile loop can append. -/
def isLoopEvent : Event → Bool
  | .compileExec _ _ => true
  | .editorInvoke _ _ => true
  | .vcsAddedFiles _ => true
  | .installPackage _ => true
  | .analyze _ _ => true
  | _ => false

theorem onlyEmits_editCompileAttempt (env : Env) (pi : ProjectInfo) (implReq : String)
    (ea : Option CompileErrorAnalysis) (ceo : Option String) (i : Nat) :
    OnlyEmits (editCompileAttempt env pi implReq ea ceo i) isLoopEvent := by
  unfold editCompileAttempt
  apply onlyEmits_bind (onlyEmits_getM _)
  intro s
  cases ea with
  | none => exact onlyEmits_throwM _ _
  | some a =>
      apply onlyEmits_bind
      · cases a.installPackages with
        | none => exact onlyEmits_pure _ _
        | some pkgs => exact onlyEmits_installAll pkgs (fun _ => rfl)
      intro _
      apply onlyEmits_bind
      · exact onlyEmits_ite _ (onlyEmits_compileM env pi (fun _ _ => rfl)) (onlyEmits_pure _ _)
      intro _
      apply onlyEmits_bind
      · exact onlyEmits_editFilesToMeetRequirementsM env _ _ (fun _ _ => rfl)
      intro _
      apply onlyEmits_bind
      · exact onlyEmits_recordCommitAddedFiles env (fun _ => rfl)
      intro _
      exact onlyEmits_compileM env pi (fun _ _ => rfl)

theorem onlyEmits_editCompileLoop (env : Env) (pi : ProjectInfo) (implReq : String) :
    ∀ fuel i ea ceo, OnlyEmits (editCompileLoop env pi implReq fuel i ea ceo) isLoopEvent := by
  intro fuel
  induction fuel with
  | zero => intro i ea ceo; exact onlyEmits_pure _ _
  | succ fuel ih =>
      intro i ea ceo
      unfold editCompileLoop
      apply onlyEmits_tryCatchM
      · exact onlyEmits_bind (onlyEmits_editCompileAttempt env pi implReq ea ceo i)
          (fun _ => onlyEmits_pure _ _)
      · intro msg
        apply onlyEmits_bind (onlyEmits_getM _)
        intro s
        apply onlyEmits_bind (onlyEmits_analyzeCompileErrorsM env _ _ (fun _ _ => rfl))
        intro ar
        exact ih (i + 1) (some ar) (some msg)

/-- Events possible before the static-analysis / test stages: everything
except lint runs, commits and test runs. -/
def isPreGateEvent : Event → Bool
  | .lintExec _ _ => false
  | .commitAll _ => false
  | .testExec _ _ => false
  | _ => true

theorem onlyEmits_workflowThroughCompileLoop (env : Env) (req : String) (pi : ProjectInfo) :
    OnlyEmits (workflowThroughCompileLoop env req pi) isPreGateEvent := by
  unfold workflowThroughCompileLoop
  apply onlyEmits_bind
  · unfold selectFilesPhase
    apply onlyEmits_bind
    · exact onlyEmits_modifyM (fun _ => [Event.selectFiles req]) (fun _ => rfl) (fun _ => rfl)
    intro _
    apply onlyEmits_bind
    · exact onlyEmits_modifyM (fun _ => []) (fun s => by simp) (fun _ => rfl)
    intro _
    exact onlyEmits_pure _ _
  intro _
  apply onlyEmits_bind
  · unfold implementationSpecPhase
    apply onlyEmits_bind
    · exact onlyEmits_modifyM (fun _ => [Event.generateImplSpec]) (fun _ => rfl) (fun _ => rfl)
    intro _
    exact onlyEmits_pure _ _
  intro _
  exact onlyEmits_mono (onlyEmits_editCompileLoop env pi _ MAX_ATTEMPTS 0 none none)
    (fun e he => by cases e <;> simp_all [isLoopEvent, isPreGateEvent])

/-- Events the test stage can append. -/
def isTestStageEvent : Event → Bool
  | .editorInvoke _ _ => true
  | .compileExec _ _ => true
  | .testExec _ _ => true
  | .analyze _ _ => true
  | _ => false

theorem onlyEmits_testAttempts (env : Env) (req : String) (pi : ProjectInfo) :
    ∀ fuel ea, OnlyEmits (testAttempts env req pi ea fuel) isTestStageEvent := by
  intro fuel
  induction fuel with
  | zero => intro ea; exact onlyEmits_pure _ _
  | succ fuel ih =>
      intro ea
      unfold testAttempts
      apply onlyEmits_tryCatchM
      · apply onlyEmits_bind (onlyEmits_getM _)
        intro s
        apply onlyEmits_bind
          (onlyEmits_editFilesToMeetRequirementsM env _ _ (fun _ _ => rfl))
        intro _
        apply onlyEmits_bind (onlyEmits_compileM env pi (fun _ _ => rfl))
        intro _
        apply onlyEmits_bind (onlyEmits_runTests env pi (fun _ _ => rfl))
        intro _
        exact onlyEmits_pure _ _
      · intro msg
        apply onlyEmits_bind (onlyEmits_getM _)
        intro s
        apply onlyEmits_bind (onlyEmits_analyzeCompileErrorsM env _ _ (fun _ _ => rfl))
        intro ar
        exact ih (some ar)

theorem onlyEmits_testLoop (env : Env) (req : String) (pi : ProjectInfo) :
    OnlyEmits (testLoop env req pi) isTestStageEvent := by
  unfold testLoop
  exact onlyEmits_ite _ (onlyEmits_pure _ _) (onlyEmits_testAttempts env req pi MAX_ATTEMPTS none)

/-! ## The working file set grows exactly by the files the editor commits add -/

/-- Concatenation of the file lists reported by the version-control
"files added in head commit" events of a trace, in order. -/
def vcsAdded : List Event → List String
  | [] => []
  | Event.vcsAddedFiles fs :: rest => fs ++ vcsAdded rest
  | _ :: rest => vcsAdded rest

theorem vcsAdded_append (t1 t2 : List Event) :
    vcsAdded (t1 ++ t2) = vcsAdded t1 ++ vcsAdded t2 := by
  induction t1 with
  | nil => simp [vcsAdded]
  | cons e rest ih => cases e <;> simp [vcsAdded, ih]

/-- The computation appends `t` to the trace and appends exactly the
vcs-reported files of `t` to the working file set. -/
def GrowsBySel {α : Type} (x : M α) : Prop :=
  ∀ s : St, ∃ t : List Event,
    (x s).2.trace = s.trace ++ t ∧ (x s).2.selected = s.selected ++ vcsAdded t

theorem grows_pure {α : Type} (a : α) : GrowsBySel (pure a : M α) :=
  fun s => ⟨[], by simp [vcsAdded], by simp [vcsAdded]⟩

theorem grows_throwM {α : Type} (msg : String) : GrowsBySel (throwM msg : M α) :=
  fun s => ⟨[], by simp [vcsAdded], by simp [vcsAdded]⟩

theorem grows_getM : GrowsBySel getM :=
  fun s => ⟨[], by simp [vcsAdded], by simp [vcsAdded]⟩

theorem grows_bind {α β : Type} {x : M α} {f : α → M β}
    (hx : GrowsBySel x) (hf : ∀ a, GrowsBySel (f a)) : GrowsBySel (x >>= f) := by
  intro s
  obtain ⟨t1, ht1, hs1⟩ := hx s
  cases hxs : x s with
  | mk r s' =>
    rw [hxs] at ht1 hs1
    cases r with
    | ok a =>
      obtain ⟨t2, ht2, hs2⟩ := hf a s'
      refine ⟨t1 ++ t2, ?_, ?_⟩
      · simp only [bind_apply, hxs]
        rw [ht2, ht1, List.append_assoc]
      · simp only [bind_apply, hxs]
        rw [hs2, hs1, vcsAdded_append, List.append_assoc]
    | error msg =>
      refine ⟨t1, ?_, ?_⟩ <;> simp only [bind_apply, hxs] <;> assumption

theorem grows_tryCatchM {α : Type} {x : M α} {h : String → M α}
    (hx : GrowsBySel x) (hh : ∀ msg, GrowsBySel (h msg)) : GrowsBySel (tryCatchM x h) := by
  intro s
  obtain ⟨t1, ht1, hs1⟩ := hx s
  cases hxs : x s with
  | mk r s' =>
    rw [hxs] at ht1 hs1
    cases r with
    | ok a =>
      refine ⟨t1, ?_, ?_⟩ <;> simp only [tryCatchM_apply, hxs] <;> assumption
    | error msg =>
      obtain ⟨t2, ht2, hs2⟩ := hh msg s'
      refine ⟨t1 ++ t2, ?_, ?_⟩
      · simp only [tryCatchM_apply, hxs]
        rw [ht2, ht1, List.append_assoc]
      · simp only [tryCatchM_apply, hxs]
        rw [hs2, hs1, vcsAdded_append, List.append_assoc]

theorem grows_ite {α : Type} (c : Prop) [Decidable c] {x y : M α}
    (hx : GrowsBySel x) (hy : GrowsBySel y) : GrowsBySel (if c then x else y) := by
  split <;> assumption

theorem grows_modifyM {f : St → St} (t : St → List Event)
    (htr : ∀ s, (f s).trace = s.trace ++ t s)
    (hsel : ∀ s, (f s).selected = s.selected ++ vcsAdded (t s)) :
    GrowsBySel (modifyM f) :=
  fun s => ⟨t s, by simpa using htr s, by simpa using hsel s⟩

theorem grows_compileM (env : Env) (pi : ProjectInfo) : GrowsBySel (compileM env pi) := by
  intro s
  refine ⟨[Event.compileExec pi.compile (env.compileResult s.compiles)], ?_, ?_⟩ <;>
    rw [compileM_apply] <;> simp [vcsAdded]

theorem grows_runStaticAnalysis (env : Env) (pi : ProjectInfo) :
    GrowsBySel (runStaticAnalysis env pi) := by
  intro s
  cases hst : truthy pi.staticAnalysis with
  | false =>
      refine ⟨[], ?_, ?_⟩ <;> rw [runStaticAnalysis_skip env pi s hst] <;> simp [vcsAdded]
  | true =>
      refine ⟨[Event.lintExec (interpUndef pi.staticAnalysis) (env.lintResult s.lints)], ?_, ?_⟩ <;>
        rw [runStaticAnalysis_apply env pi s hst] <;> simp [vcsAdded]

theorem grows_runTests (env : Env) (pi : ProjectInfo) : GrowsBySel (runTests env pi) := by
  intro s
  cases ht : truthy pi.test with
  | false =>
      refine ⟨[], ?_, ?_⟩ <;> rw [runTests_skip env pi s ht] <;> simp [vcsAdded]
  | true =>
      refine ⟨[Event.testExec (interpUndef pi.test) (env.testResult s.tests)], ?_, ?_⟩ <;>
        rw [runTests_apply env pi s ht] <;> simp [vcsAdded]

theorem grows_editFilesToMeetRequirementsM (env : Env) (req : String) (files : List String) :
    GrowsBySel (editFilesToMeetRequirementsM env req files) := by
  intro s
  refine ⟨[Event.editorInvoke req files], ?_, ?_⟩ <;>
    rw [editFilesToMeetRequirementsM_apply] <;> simp [vcsAdded]

theorem grows_analyzeCompileErrorsM (env : Env) (d : String) (files : List String) :
    GrowsBySel (analyzeCompileErrorsM env d files) := by
  intro s
  refine ⟨[Event.analyze d files], ?_, ?_⟩ <;>
    rw [analyzeCompileErrorsM_apply] <;> simp [vcsAdded]

theorem grows_recordCommitAddedFiles (env : Env) :
    GrowsBySel (recordCommitAddedFiles env) := by
  intro s
  refine ⟨[Event.vcsAddedFiles (env.filesAdded s.vcsCalls)], ?_, ?_⟩ <;>
    rw [recordCommitAddedFiles_apply] <;> simp [vcsAdded]

theorem grows_addAllTrackedAndCommitM (msg : String) :
    GrowsBySel (addAllTrackedAndCommitM msg) := by
  intro s
  refine ⟨[Event.commitAll msg], ?_, ?_⟩ <;>
    rw [addAllTrackedAndCommitM_apply] <;> simp [vcsAdded]

theorem grows_extractFilenamesM (env : Env) (summary : String) :
    GrowsBySel (extractFilenamesM env summary) := by
  intro s
  refine ⟨[Event.extractNames summary (env.extractNamesResult s.extracts)], ?_, ?_⟩ <;>
    rw [extractFilenamesM_apply] <;> simp [vcsAdded]

theorem grows_installAll (pkgs : List String) : GrowsBySel (installAll pkgs) := by
  intro s
  refine ⟨pkgs.map Event.installPackage, ?_, ?_⟩
  · rw [installAll_apply]
  · rw [installAll_apply]
    have : vcsAdded (pkgs.map Event.installPackage) = [] := by
      induction pkgs with
      | nil => simp [vcsAdded]
      | cons pkg rest ih => simp [vcsAdded, ih]
    simp [this]

theorem grows_editCompileAttempt (env : Env) (pi : ProjectInfo) (implReq : String)
    (ea : Option CompileErrorAnalysis) (ceo : Option String) (i : Nat) :
    GrowsBySel (editCompileAttempt env pi implReq ea ceo i) := by
  unfold editCompileAttempt
  apply grows_bind grows_getM
  intro s
  cases ea with
  | none => exact grows_throwM _
  | some a =>
      apply grows_bind
      · cases a.installPackages with
        | none => exact grows_pure _
        | some pkgs => exact grows_installAll pkgs
      intro _
      apply grows_bind (grows_ite _ (grows_compileM env pi) (grows_pure _))
      intro _
      apply grows_bind (grows_editFilesToMeetRequirementsM env _ _)
      intro _
      apply grows_bind (grows_recordCommitAddedFiles env)
      intro _
      exact grows_compileM env pi

theorem grows_editCompileLoop (env : Env) (pi : ProjectInfo) (implReq : String) :
    ∀ fuel i ea ceo, GrowsBySel (editCompileLoop env pi implReq fuel i ea ceo) := by
  intro fuel
  induction fuel with
  | zero => intro i ea ceo; exact grows_pure _
  | succ fuel ih =>
      intro i ea ceo
      unfold editCompileLoop
      apply grows_tryCatchM
      · exact grows_bind (grows_editCompileAttempt env pi implReq ea ceo i)
          (fun _ => grows_pure _)
      · intro msg
        apply grows_bind grows_getM
        intro s
        apply grows_bind (grows_analyzeCompileErrorsM env _ _)
        intro ar
        exact ih (i + 1) (some ar) (some msg)

theorem grows_staticAnalysisAttempts (env : Env) (pi : ProjectInfo) (ceo : Option String) :
    ∀ fuel i, GrowsBySel (staticAnalysisAttempts env pi ceo fuel i) := by
  intro fuel
  induction fuel with
  | zero => intro i; exact grows_pure _
  | succ fuel ih =>
      intro i
      unfold staticAnalysisAttempts
      apply grows_tryCatchM
      · exact grows_bind (grows_runStaticAnalysis env pi)
          (fun _ => grows_addAllTrackedAndCommitM _)
      · intro msg
        apply grows_bind (grows_addAllTrackedAndCommitM _)
        intro _
        apply grows_ite
        · exact grows_pure _
        · apply grows_bind (grows_extractFilenamesM env _)
          intro files
          apply grows_bind (grows_editFilesToMeetRequirementsM env _ _)
          intro _
          exact ih (i + 1)

theorem grows_staticAnalysisPhase (env : Env) (pi : ProjectInfo) (ceo : Option String) :
    GrowsBySel (staticAnalysisPhase env pi ceo) := by
  unfold staticAnalysisPhase
  exact grows_ite _ (grows_staticAnalysisAttempts env pi ceo _ 0) (grows_pure _)

theorem grows_testAttempts (env : Env) (req : String) (pi : ProjectInfo) :
    ∀ fuel ea, GrowsBySel (testAttempts env req pi ea fuel) := by
  intro fuel
  induction fuel with
  | zero => intro ea; exact grows_pure _
  | succ fuel ih =>
      intro ea
      unfold testAttempts
      apply grows_tryCatchM
      · apply grows_bind grows_getM
        intro s
        apply grows_bind (grows_editFilesToMeetRequirementsM env _ _)
        intro _
        apply grows_bind (grows_compileM env pi)
        intro _
        apply grows_bind (grows_runTests env pi)
        intro _
        exact grows_pure _
      · intro msg
        apply grows_bind grows_getM
        intro s
        apply grows_bind (grows_analyzeCompileErrorsM env _ _)
        intro ar
        exact ih (some ar)

theorem grows_testLoop (env : Env) (req : String) (pi : ProjectInfo) :
    GrowsBySel (testLoop env req pi) := by
  unfold testLoop
  exact grows_ite _ (grows_pure _) (grows_testAttempts env req pi MAX_ATTEMPTS none)

/-! ## Commit calls balance lint runs -/

/-- The computation appends a trace segment with equally many commit calls
and static-analysis executions. -/
def CommitLintBalanced {α : Type} (x : M α) : Prop :=
  ∀ s : St, ∃ t : List Event,
    (x s).2.trace = s.trace ++ t ∧ t.countP Event.isCommit = t.countP Event.isLint

theorem balanced_pure {α : Type} (a : α) : CommitLintBalanced (pure a : M α) :=
  fun s => ⟨[], by simp, rfl⟩

theorem balanced_bind {α β : Type} {x : M α} {f : α → M β}
    (hx : CommitLintBalanced x) (hf : ∀ a, CommitLintBalanced (f a)) :
    CommitLintBalanced (x >>= f) := by
  intro s
  obtain ⟨t1, ht1, hb1⟩ := hx s
  cases hxs : x s with
  | mk r s' =>
    rw [hxs] at ht1
    cases r with
    | ok a =>
      obtain ⟨t2, ht2, hb2⟩ := hf a s'
      refine ⟨t1 ++ t2, ?_, ?_⟩
      · simp only [bind_apply, hxs]
        rw [ht2, ht1, List.append_assoc]
      · simp only [List.countP_append, hb1, hb2]
    | error msg =>
      refine ⟨t1, ?_, hb1⟩
      simp only [bind_apply, hxs]
      exact ht1

theorem balanced_of_onlyEmits {α : Type} {x : M α} {p : Event → Bool}
    (hx : OnlyEmits x p)
    (hc : ∀ e, p e = true → Event.isCommit e = false)
    (hl : ∀ e, p e = true → Event.isLint e = false) :
    CommitLintBalanced x := by
  intro s
  obtain ⟨t, ht, hp⟩ := hx s
  refine ⟨t, ht, ?_⟩
  rw [List.all_eq_true] at hp
  rw [List.countP_eq_zero.mpr, List.countP_eq_zero.mpr]
  · intro e he
    simp [hl e (hp e he)]
  · intro e he
    simp [hc e (hp e he)]

theorem preGate_commit : ∀ e, isPreGateEvent e = true → Event.isCommit e = false := by
  intro e
  cases e <;> simp [isPreGateEvent, Event.isCommit]

theorem preGate_lint : ∀ e, isPreGateEvent e = true → Event.isLint e = false := by
  intro e
  cases e <;> simp [isPreGateEvent, Event.isLint]

theorem preGate_test : ∀ e, isPreGateEvent e = true → Event.isTest e = false := by
  intro e
  cases e <;> simp [isPreGateEvent, Event.isTest]

theorem testStage_commit : ∀ e, isTestStageEvent e = true → Event.isCommit e = false := by
  intro e
  cases e <;> simp [isTestStageEvent, Event.isCommit]

theorem testStage_lint : ∀ e, isTestStageEvent e = true → Event.isLint e = false := by
  intro e
  cases e <;> simp [isTestStageEvent, Event.isLint]

theorem onlyEmits_resolveProjectInfo (env : Env) (pi? : Option ProjectInfo)
    {p : Event → Bool} (hp : p Event.detect = true) :
    OnlyEmits (resolveProjectInfo env pi?) p := by
  cases pi? with
  | some pi => exact onlyEmits_pure _ _
  | none =>
      unfold resolveProjectInfo
      apply onlyEmits_bind
      · exact onlyEmits_modifyM (fun _ => [Event.detect]) (fun _ => rfl) (fun _ => by simp [hp])
      intro _
      cases env.detected with
      | nil => exact onlyEmits_throwM _ _
      | cons a rest =>
          cases rest with
          | nil => exact onlyEmits_pure _ _
          | cons b rest2 => exact onlyEmits_throwM _ _

theorem grows_resolveProjectInfo (env : Env) (pi? : Option ProjectInfo) :
    GrowsBySel (resolveProjectInfo env pi?) := by
  cases pi? with
  | some pi => exact grows_pure _
  | none =>
      unfold resolveProjectInfo
      apply grows_bind
      · exact grows_modifyM (fun _ => [Event.detect]) (fun _ => rfl) (fun _ => by simp [vcsAdded])
      intro _
      cases env.detected with
      | nil => exact grows_throwM _
      | cons a rest =>
          cases rest with
          | nil => exact grows_pure _
          | cons b rest2 => exact grows_throwM _

/-- Every executed round of the static-analysis loop runs the analysis once
and commits once, whatever the round's outcome, so the appended trace always
holds equally many commits and analysis executions. -/
theorem balanced_staticAnalysisAttempts (env : Env) (pi : ProjectInfo) (ceo : Option String)
    (hst : truthy pi.staticAnalysis = true) :
    ∀ fuel i, CommitLintBalanced (staticAnalysisAttempts env pi ceo fuel i) := by
  intro fuel
  induction fuel with
  | zero => intro i; exact balanced_pure _
  | succ fuel ih =>
      intro i s
      by_cases c0 : (env.lintResult s.lints).exitCode > 0
      case neg =>
        refine ⟨[Event.lintExec (interpUndef pi.staticAnalysis) (env.lintResult s.lints),
          Event.commitAll "Fix static analysis errors"], ?_, ?_⟩
        · simp [staticAnalysisAttempts, tryCatchM_apply, bind_apply,
            runStaticAnalysis_apply env pi s hst, c0, addAllTrackedAndCommitM_apply]
        · simp [List.countP_cons, Event.isCommit, Event.isLint]
      case pos =>
        -- the analysis run fails; the handler commits, and on a non-final
        -- round extracts names and invokes the editor before retrying
        by_cases hi : (i == STATIC_ANALYSIS_MAX_ATTEMPTS - 1) = true
        · refine ⟨[Event.lintExec (interpUndef pi.staticAnalysis) (env.lintResult s.lints),
            Event.commitAll "Fix static analysis errors"], ?_, ?_⟩
          · simp [staticAnalysisAttempts, tryCatchM_apply, bind_apply,
              runStaticAnalysis_apply env pi s hst, c0, addAllTrackedAndCommitM_apply, hi]
          · simp [List.countP_cons, Event.isCommit, Event.isLint]
        · -- non-final failing round
          set s1 : St :=
            { s with lints := s.lints + 1,
                     trace := s.trace ++
                       [Event.lintExec (interpUndef pi.staticAnalysis) (env.lintResult s.lints)] }
            with hs1
          set s2 : St := { s1 with trace := s1.trace ++ [Event.commitAll "Fix static analysis errors"] }
            with hs2
          set summary : String :=
            interpNull ceo ++ "\n\nExtract the filenames from the compile errors." with hsum
          set s3 : St :=
            { s2 with extracts := s2.extracts + 1,
                      trace := s2.trace ++
                        [Event.extractNames summary (env.extractNamesResult s2.extracts)] }
            with hs3
          set editorReq : String :=
            "Static analysis command: " ++ interpUndef pi.staticAnalysis ++ "\n" ++
              interpNull ceo ++ "\nFix these static analysis errors" with hreq
          set s4 : St :=
            { s3 with editors := s3.editors + 1,
                      trace := s3.trace ++
                        [Event.editorInvoke editorReq (env.extractNamesResult s2.extracts)] }
            with hs4
          have hstep : staticAnalysisAttempts env pi ceo (fuel + 1) i s =
              match env.editorResult s3.editors with
              | some msg => (Except.error msg, s4)
              | none => staticAnalysisAttempts env pi ceo fuel (i + 1) s4 := by
            simp only [staticAnalysisAttempts, tryCatchM_apply, bind_apply,
              runStaticAnalysis_apply env pi s hst, if_pos c0, addAllTrackedAndCommitM_apply,
              hi, Bool.false_eq_true, if_false, extractFilenamesM_apply,
              editFilesToMeetRequirementsM_apply]
            cases env.editorResult s3.editors <;> rfl
          cases he : env.editorResult s3.editors with
          | some msg =>
              refine ⟨[Event.lintExec (interpUndef pi.staticAnalysis) (env.lintResult s.lints),
                Event.commitAll "Fix static analysis errors",
                Event.extractNames summary (env.extractNamesResult s2.extracts),
                Event.editorInvoke editorReq (env.extractNamesResult s2.extracts)], ?_, ?_⟩
              · rw [hstep, he]
                simp [hs4, hs3, hs2, hs1]
              · simp [List.countP_cons, Event.isCommit, Event.isLint]
          | none =>
              obtain ⟨t', ht', hb'⟩ := ih (i + 1) s4
              refine ⟨[Event.lintExec (interpUndef pi.staticAnalysis) (env.lintResult s.lints),
                Event.commitAll "Fix static analysis errors",
                Event.extractNames summary (env.extractNamesResult s2.extracts),
                Event.editorInvoke editorReq (env.extractNamesResult s2.extracts)] ++ t', ?_, ?_⟩
              · rw [hstep, he, ht']
                simp [hs4, hs3, hs2, hs1]
              · simp [List.countP_append, List.countP_cons, Event.isCommit, Event.isLint, hb']

theorem balanced_staticAnalysisPhase (env : Env) (pi : ProjectInfo) (ceo : Option String) :
    CommitLintBalanced (staticAnalysisPhase env pi ceo) := by
  unfold staticAnalysisPhase
  cases hst : truthy pi.staticAnalysis with
  | false =>
      rw [if_neg (by simp)]
      exact balanced_pure _
  | true =>
      rw [if_pos rfl]
      exact balanced_staticAnalysisAttempts env pi ceo hst STATIC_ANALYSIS_MAX_ATTEMPTS 0

theorem balanced_postCompileLoopPhase (env : Env) (req : String) (pi : ProjectInfo)
    (r : Option CompileErrorAnalysis × Option String) :
    CommitLintBalanced (postCompileLoopPhase env req pi r) := by
  unfold postCompileLoopPhase
  obtain ⟨ea, ceo⟩ := r
  cases ea with
  | some a => exact balanced_pure _
  | none =>
      apply balanced_bind (balanced_staticAnalysisPhase env pi ceo)
      intro _
      apply balanced_bind
      · exact balanced_of_onlyEmits (onlyEmits_testLoop env req pi)
          testStage_commit testStage_lint
      intro _
      exact balanced_pure _

theorem grows_postCompileLoopPhase (env : Env) (req : String) (pi : ProjectInfo)
    (r : Option CompileErrorAnalysis × Option String) :
    GrowsBySel (postCompileLoopPhase env req pi r) := by
  unfold postCompileLoopPhase
  obtain ⟨ea, ceo⟩ := r
  cases ea with
  | some a => exact grows_pure _
  | none =>
      apply grows_bind (grows_staticAnalysisPhase env pi ceo)
      intro _
      apply grows_bind (grows_testLoop env req pi)
      intro _
      exact grows_pure _

theorem balanced_runCodeEditWorkflow (env : Env) (req : String) (pi? : Option ProjectInfo) :
    CommitLintBalanced (runCodeEditWorkflow env req pi?) := by
  unfold runCodeEditWorkflow
  apply balanced_bind
  · exact balanced_of_onlyEmits (onlyEmits_resolveProjectInfo env pi? rfl)
      preGate_commit preGate_lint
  intro pi
  apply balanced_bind
  · exact balanced_of_onlyEmits (onlyEmits_workflowThroughCompileLoop env req pi)
      preGate_commit preGate_lint
  intro r
  exact balanced_postCompileLoopPhase env req pi r

/-! ## Evaluation of the workflow prefix -/

theorem selectFilesPhase_apply (env : Env) (req : String) (s : St) :
    selectFilesPhase env req s =
      (Except.ok (initialFilesOf env),
       { s with selected := initialFilesOf env,
                trace := s.trace ++ [Event.selectFiles req] }) := by
  simp [selectFilesPhase, initialFilesOf]

theorem implementationSpecPhase_apply (env : Env) (s : St) :
    implementationSpecPhase env s =
      (Except.ok env.implementationRequirements,
       { s with trace := s.trace ++ [Event.generateImplSpec] }) := by
  simp [implementationSpecPhase]

theorem workflowThroughCompileLoop_apply (env : Env) (req : String) (pi : ProjectInfo)
    (s : St) :
    workflowThroughCompileLoop env req pi s =
      editCompileLoop env pi env.implementationRequirements MAX_ATTEMPTS 0 none none
        { s with selected := initialFilesOf env,
                 trace := s.trace ++ [Event.selectFiles req, Event.generateImplSpec] } := by
  simp [workflowThroughCompileLoop, selectFilesPhase_apply, implementationSpecPhase_apply]

theorem runCodeEditWorkflow_some_apply (env : Env) (req : String) (pi : ProjectInfo)
    (s : St) :
    runCodeEditWorkflow env req (some pi) s =
      (editCompileLoop env pi env.implementationRequirements MAX_ATTEMPTS 0 none none >>=
        fun r => postCompileLoopPhase env req pi r)
      { s with selected := initialFilesOf env,
               trace := s.trace ++ [Event.selectFiles req, Event.generateImplSpec] } := by
  simp only [runCodeEditWorkflow, bind_apply, resolveProjectInfo, pure_apply,
    workflowThroughCompileLoop_apply]

/-! ## No compile execution ever precedes the first editor invocation -/

theorem editCompileLoop_none_step (env : Env) (pi : ProjectInfo) (implReq : String)
    (fuel i : Nat) (ceo : Option String) (s : St) :
    editCompileLoop env pi implReq (Nat.succ (Nat.succ fuel)) i none ceo s =
      editCompileLoop env pi implReq (Nat.succ fuel) (i + 1)
        (some (env.analysis nullInstallPackagesMessage s.selected))
        (some nullInstallPackagesMessage)
        { s with trace := s.trace ++ [Event.analyze nullInstallPackagesMessage s.selected] } := by
  simp only [editCompileLoop, editCompileAttempt, tryCatchM_apply, bind_apply, getM_apply,
    throwM_apply, pure_apply, analyzeCompileErrorsM_apply]

theorem editCompileAttempt_some_apply (env : Env) (pi : ProjectInfo) (implReq : String)
    (a : CompileErrorAnalysis) (ceo : Option String) (i : Nat) (s : St)
    (hi : (i == 0) = false) :
    editCompileAttempt env pi implReq (some a) ceo i s =
      ((match env.editorResult s.editors with
        | some m => Except.error m
        | none =>
            if (env.compileResult s.compiles).exitCode > 0 then
              Except.error (compileOutputXml pi.compile (env.compileResult s.compiles).stdout
                (env.compileResult s.compiles).stderr)
            else Except.ok ()),
       match env.editorResult s.editors with
       | some _ =>
           { s with editors := s.editors + 1,
                    trace := s.trace ++
                      ((match a.installPackages with
                        | some pkgs => pkgs.map Event.installPackage
                        | none => []) ++
                       [Event.editorInvoke
                         (implReq ++ "\nImmediate task: Fix the following compile errors:\n" ++
                           interpNull ceo)
                         (match a.additionalFiles with
                          | some extra => s.selected ++ extra
                          | none => s.selected)]) }
       | none =>
           { s with editors := s.editors + 1,
                    vcsCalls := s.vcsCalls + 1,
                    compiles := s.compiles + 1,
                    selected := s.selected ++ env.filesAdded s.vcsCalls,
                    trace := s.trace ++
                      ((match a.installPackages with
                        | some pkgs => pkgs.map Event.installPackage
                        | none => []) ++
                       [Event.editorInvoke
                         (implReq ++ "\nImmediate task: Fix the following compile errors:\n" ++
                           interpNull ceo)
                         (match a.additionalFiles with
                          | some extra => s.selected ++ extra
                          | none => s.selected),
                        Event.vcsAddedFiles (env.filesAdded s.vcsCalls),
                        Event.compileExec pi.compile (env.compileResult s.compiles)]) }) := by
  cases hp : a.installPackages with
  | none =>
      cases he : env.editorResult s.editors with
      | none =>
          by_cases hc : (env.compileResult s.compiles).exitCode > 0 <;>
            simp [editCompileAttempt, hi, hp, he, editFilesToMeetRequirementsM_apply,
              recordCommitAddedFiles_apply, compileM_apply]
      | some m =>
          simp [editCompileAttempt, hi, hp, he, editFilesToMeetRequirementsM_apply]
  | some pkgs =>
      cases he : env.editorResult
          (({ s with trace := s.trace ++ pkgs.map Event.installPackage } : St).editors) with
      | none =>
          by_cases hc : (env.compileResult s.compiles).exitCode > 0 <;>
            simp [editCompileAttempt, hi, hp, he, installAll_apply,
              editFilesToMeetRequirementsM_apply, recordCommitAddedFiles_apply, compileM_apply]
      | some m =>
          simp [editCompileAttempt, hi, hp, he, installAll_apply,
            editFilesToMeetRequirementsM_apply]

/-- On a round entered with a set diagnosis and a nonzero index (every round
after the first), the events appended before the editor invocation are
install events only; in particular no compile execution precedes it. -/
theorem editCompileLoop_round_trace (env : Env) (pi : ProjectInfo) (implReq : String)
    (a : CompileErrorAnalysis) (ceo : Option String) (fuel i : Nat) (s : St)
    (hi : (i == 0) = false) :
    ∃ pre r fs rest,
      (editCompileLoop env pi implReq (Nat.succ fuel) i (some a) ceo s).2.trace =
        s.trace ++ (pre ++ Event.editorInvoke r fs :: rest) ∧
      ∀ e ∈ pre, e.isEditor = false ∧ e.isCompile = false := by
  have hpre : ∀ e ∈ (match a.installPackages with
      | some pkgs => pkgs.map Event.installPackage
      | none => ([] : List Event)), e.isEditor = false ∧ e.isCompile = false := by
    cases a.installPackages with
    | none => intro e he; simp at he
    | some pkgs =>
        intro e he
        obtain ⟨p, _, rfl⟩ := List.mem_map.mp he
        exact ⟨rfl, rfl⟩
  have hext : ∀ ea2 ceo2 (s2 : St), ∃ t,
      (editCompileLoop env pi implReq fuel (i + 1) ea2 ceo2 s2).2.trace = s2.trace ++ t := by
    intro ea2 ceo2 s2
    obtain ⟨t, ht, _⟩ := onlyEmits_editCompileLoop env pi implReq fuel (i + 1) ea2 ceo2 s2
    exact ⟨t, ht⟩
  cases he : env.editorResult s.editors with
  | some m =>
      obtain ⟨t, ht⟩ := hext _ _ _
      refine ⟨(match a.installPackages with
          | some pkgs => pkgs.map Event.installPackage
          | none => []),
        implReq ++ "\nImmediate task: Fix the following compile errors:\n" ++ interpNull ceo,
        (match a.additionalFiles with
          | some extra => s.selected ++ extra
          | none => s.selected),
        Event.analyze m s.selected :: t, ?_, hpre⟩
      simp only [editCompileLoop, tryCatchM_apply, bind_apply,
        editCompileAttempt_some_apply env pi implReq a ceo i s hi, he, getM_apply,
        analyzeCompileErrorsM_apply, pure_apply]
      rw [ht]
      simp [List.append_assoc]
  | none =>
      by_cases hc : (env.compileResult s.compiles).exitCode > 0
      case neg =>
          refine ⟨(match a.installPackages with
              | some pkgs => pkgs.map Event.installPackage
              | none => []),
            implReq ++ "\nImmediate task: Fix the following compile errors:\n" ++ interpNull ceo,
            (match a.additionalFiles with
              | some extra => s.selected ++ extra
              | none => s.selected),
            [Event.vcsAddedFiles (env.filesAdded s.vcsCalls),
             Event.compileExec pi.compile (env.compileResult s.compiles)], ?_, hpre⟩
          simp [editCompileLoop, tryCatchM_apply, bind_apply,
            editCompileAttempt_some_apply env pi implReq a ceo i s hi, he,
            pure_apply, hc, List.append_assoc]
      case pos =>
          obtain ⟨t, ht⟩ := hext _ _ _
          refine ⟨(match a.installPackages with
              | some pkgs => pkgs.map Event.installPackage
              | none => []),
            implReq ++ "\nImmediate task: Fix the following compile errors:\n" ++ interpNull ceo,
            (match a.additionalFiles with
              | some extra => s.selected ++ extra
              | none => s.selected),
            [Event.vcsAddedFiles (env.filesAdded s.vcsCalls),
             Event.compileExec pi.compile (env.compileResult s.compiles)] ++
              Event.analyze (compileOutputXml pi.compile (env.compileResult s.compiles).stdout
                (env.compileResult s.compiles).stderr)
                (s.selected ++ env.filesAdded s.vcsCalls) :: t, ?_, hpre⟩
          simp only [editCompileLoop, tryCatchM_apply, bind_apply,
            editCompileAttempt_some_apply env pi implReq a ceo i s hi, he, getM_apply,
            analyzeCompileErrorsM_apply, pure_apply, hc, if_true]
          rw [ht]
          simp [List.append_assoc]

/-- Trace shape of the whole edit-compile loop as the workflow enters it:
round one throws on the null dereference and emits only the analyze event,
then round two reaches the editor after at most some install events — no
compile execution can precede the first editor invocation. -/
theorem editCompileLoop_two_rounds_trace (env : Env) (pi : ProjectInfo) (implReq : String)
    (s : St) :
    ∃ pre r fs rest,
      (editCompileLoop env pi implReq MAX_ATTEMPTS 0 none none s).2.trace =
        s.trace ++ (pre ++ Event.editorInvoke r fs :: rest) ∧
      ∀ e ∈ pre, e.isEditor = false ∧ e.isCompile = false := by
  rw [show MAX_ATTEMPTS = Nat.succ (Nat.succ 0) from rfl, editCompileLoop_none_step]
  obtain ⟨pre1, r1, fs1, rest1, ht1, hp1⟩ := editCompileLoop_round_trace env pi implReq
    (env.analysis nullInstallPackagesMessage s.selected) (some nullInstallPackagesMessage)
    0 (0 + 1) { s with trace := s.trace ++ [Event.analyze nullInstallPackagesMessage s.selected] }
    rfl
  refine ⟨Event.analyze nullInstallPackagesMessage s.selected :: pre1, r1, fs1, rest1, ?_, ?_⟩
  · rw [ht1]
    simp [List.append_assoc]
  · intro e he
    rcases List.mem_cons.mp he with h | h
    · subst h; exact ⟨rfl, rfl⟩
    · exact hp1 e h

/-- Every run's trace decomposes at its first editor invocation, and the
events before it are never editor or compile events. -/
theorem workflowTrace_first_editor (env : Env) (req : String) (pi : ProjectInfo) :
    ∃ pre r fs rest,
      workflowTrace env req (some pi) = pre ++ Event.editorInvoke r fs :: rest ∧
      ∀ e ∈ pre, e.isEditor = false ∧ e.isCompile = false := by
  unfold workflowTrace workflowRun
  rw [runCodeEditWorkflow_some_apply]
  simp only [bind_apply]
  obtain ⟨pre1, r1, fs1, rest1, ht1, hp1⟩ := editCompileLoop_two_rounds_trace env pi
    env.implementationRequirements
    { initSt with selected := initialFilesOf env,
                  trace := initSt.trace ++ [Event.selectFiles req, Event.generateImplSpec] }
  cases hl : editCompileLoop env pi env.implementationRequirements MAX_ATTEMPTS 0 none none
      { initSt with selected := initialFilesOf env,
                    trace := initSt.trace ++ [Event.selectFiles req, Event.generateImplSpec] } with
  | mk rr s' =>
    rw [hl] at ht1
    cases rr with
    | ok r =>
        obtain ⟨t2, ht2, _⟩ := balanced_postCompileLoopPhase env req pi r s'
        refine ⟨Event.selectFiles req :: Event.generateImplSpec :: pre1, r1, fs1,
          rest1 ++ t2, ?_, ?_⟩
        · show (postCompileLoopPhase env req pi r s').2.trace = _
          rw [ht2, ht1]
          simp [initSt, List.append_assoc]
        · intro e he
          rcases List.mem_cons.mp he with h | h
          · subst h; exact ⟨rfl, rfl⟩
          · rcases List.mem_cons.mp h with h2 | h2
            · subst h2; exact ⟨rfl, rfl⟩
            · exact hp1 e h2
    | error m =>
        refine ⟨Event.selectFiles req :: Event.generateImplSpec :: pre1, r1, fs1, rest1, ?_, ?_⟩
        · show ((Except.error m : Except String Unit), s').2.trace = _
          rw [ht1]
          simp [initSt, List.append_assoc]
        · intro e he
          rcases List.mem_cons.mp he with h | h
          · subst h; exact ⟨rfl, rfl⟩
          · rcases List.mem_cons.mp h with h2 | h2
            · subst h2; exact ⟨rfl, rfl⟩
            · exact hp1 e h2

theorem countP_compile_takeWhile_eq_zero (pre : List Event)
    (hpre : ∀ e ∈ pre, e.isEditor = false ∧ e.isCompile = false)
    (r : String) (fs : List String) (rest : List Event) :
    ((pre ++ Event.editorInvoke r fs :: rest).takeWhile (fun e => !e.isEditor)).countP
      Event.isCompile = 0 := by
  induction pre with
  | nil => simp [List.takeWhile_cons, Event.isEditor]
  | cons e pre' ih =>
      obtain ⟨he, hc⟩ := hpre e (List.mem_cons_self _ _)
      have ih' := ih fun x hx => hpre x (List.mem_cons_of_mem _ hx)
      simp [List.takeWhile_cons, he, hc, ih']

/-! ## Claim theorems -/

/-- Claim C1: for every run of `runCodeEditWorkflow` in which the
edit-compile loop ends with its diagnosis still set, the workflow stops
immediately: the run's whole trace is the trace accumulated up to the end of
the loop, and it holds no static-analysis execution, no commit, and no test
execution. -/
theorem claim1_compile_gate_stops_workflow (env : Env) (req : String) (pi : ProjectInfo)
    (h : (editCompileOutcome env req pi).isSome = true) :
    workflowTrace env req (some pi) = (workflowThroughCompileLoop env req pi initSt).2.trace ∧
    (workflowTrace env req (some pi)).countP Event.isLint = 0 ∧
    (workflowTrace env req (some pi)).countP Event.isCommit = 0 ∧
    (workflowTrace env req (some pi)).countP Event.isTest = 0 := by
  obtain ⟨t, ht, hall⟩ := onlyEmits_workflowThroughCompileLoop env req pi initSt
  cases hl : workflowThroughCompileLoop env req pi initSt with
  | mk rr s1 =>
    rw [hl] at ht
    cases rr with
    | error msg =>
        exfalso
        unfold editCompileOutcome at h
        rw [hl] at h
        simp at h
    | ok r =>
        obtain ⟨a, ha⟩ : ∃ a, r.1 = some a := by
          unfold editCompileOutcome at h
          rw [hl] at h
          exact Option.isSome_iff_exists.mp h
        have hrun : workflowRun env req (some pi) = (Except.ok (), s1) := by
          unfold workflowRun
          rw [runCodeEditWorkflow_some_apply]
          simp only [bind_apply]
          rw [← workflowThroughCompileLoop_apply, hl]
          show postCompileLoopPhase env req pi r s1 = (Except.ok (), s1)
          unfold postCompileLoopPhase
          rw [ha]
          rfl
        have htrace : workflowTrace env req (some pi) = s1.trace := by
          unfold workflowTrace
          rw [hrun]
        have ht' : s1.trace = t := by
          simpa [initSt] using ht
        refine ⟨?_, ?_, ?_, ?_⟩
        · rw [htrace]
        · rw [htrace, ht']
          exact List.countP_eq_zero.mpr fun e he => by
            simp [preGate_lint e (List.all_eq_true.mp hall e he)]
        · rw [htrace, ht']
          exact List.countP_eq_zero.mpr fun e he => by
            simp [preGate_commit e (List.all_eq_true.mp hall e he)]
        · rw [htrace, ht']
          exact List.countP_eq_zero.mpr fun e he => by
            simp [preGate_test e (List.all_eq_true.mp hall e he)]

/-- Witness for C1 on a concrete run where the compile command always
fails, so the loop exhausts with its diagnosis set. -/
theorem claim1_witness :
    (editCompileOutcome envFail "r" piPlain).isSome = true ∧
    (workflowTrace envFail "r" (some piPlain) =
        (workflowThroughCompileLoop envFail "r" piPlain initSt).2.trace ∧
      (workflowTrace envFail "r" (some piPlain)).countP Event.isLint = 0 ∧
      (workflowTrace envFail "r" (some piPlain)).countP Event.isCommit = 0 ∧
      (workflowTrace envFail "r" (some piPlain)).countP Event.isTest = 0) :=
  ⟨by decide, claim1_compile_gate_stops_workflow envFail "r" piPlain (by decide)⟩

/-- Claim C4: in every run, the number of commit calls equals the number of
static-analysis executions — the static-analysis loop commits after every
round it executes (each executed round runs the analysis exactly once),
whether the round passed or failed, and no other stage commits. -/
theorem claim4_commit_after_every_round (env : Env) (req : String)
    (pi? : Option ProjectInfo) :
    (workflowTrace env req pi?).countP Event.isCommit =
      (workflowTrace env req pi?).countP Event.isLint := by
  obtain ⟨t, ht, hb⟩ := balanced_runCodeEditWorkflow env req pi? initSt
  unfold workflowTrace workflowRun
  rw [ht]
  simpa [initSt] using hb

/-- Claim C8: with no `ProjectInfo` supplied and a detection result whose
length is not 1, the workflow raises the detection error and performs no file
selection, no edit, no compile and no commit. -/
theorem claim8_detection_ambiguity_aborts (env : Env) (req : String)
    (h : env.detected.length ≠ 1) :
    (workflowRun env req none).1 = Except.error "projectInfo array must have one item" ∧
    (workflowTrace env req none).countP Event.isSelect = 0 ∧
    (workflowTrace env req none).countP Event.isEditor = 0 ∧
    (workflowTrace env req none).countP Event.isCompile = 0 ∧
    (workflowTrace env req none).countP Event.isCommit = 0 := by
  have hres : runCodeEditWorkflow env req none initSt =
      (Except.error "projectInfo array must have one item",
       { initSt with trace := [Event.detect] }) := by
    cases hd : env.detected with
    | nil => simp [runCodeEditWorkflow, resolveProjectInfo, hd, initSt]
    | cons a rest =>
        cases rest with
        | nil => exact absurd (by rw [hd]; rfl) h
        | cons b rest2 => simp [runCodeEditWorkflow, resolveProjectInfo, hd, initSt]
  refine ⟨?_, ?_, ?_, ?_, ?_⟩ <;>
    simp [workflowRun, workflowTrace, hres, Event.isSelect, Event.isEditor,
      Event.isCompile, Event.isCommit]

/-- Witness for C8 at an empty detection result. -/
theorem claim8_witness :
    envAmbig.detected.length ≠ 1 ∧
    ((workflowRun envAmbig "r" none).1 =
        Except.error "projectInfo array must have one item" ∧
      (workflowTrace envAmbig "r" none).countP Event.isSelect = 0 ∧
      (workflowTrace envAmbig "r" none).countP Event.isEditor = 0 ∧
      (workflowTrace envAmbig "r" none).countP Event.isCompile = 0 ∧
      (workflowTrace envAmbig "r" none).countP Event.isCommit = 0) :=
  ⟨by decide, claim8_detection_ambiguity_aborts envAmbig "r" (by decide)⟩

/-- The round-two edit requirement on runs starting from `envOk`: the
implementation specification plus the immediate-task suffix interpolating the
round-one TypeError message. -/
def fixErrorsEditorReq : String :=
  "impl\nImmediate task: Fix the following compile errors:\n" ++ nullInstallPackagesMessage

/-- The test-loop editor requirement for the requirement text "r". -/
def testStageEditorReq : String :=
  "r\nSome of the requirements may have already been implemented, so don\x27t duplicate any existing implementation meeting the requirements.\nWrite any additional tests that would be of value."

/-- The full run of `envOk`: round one throws on the null dereference before
any compile, round two edits and compiles once. -/
theorem envOk_run :
    workflowRun envOk "r" (some piPlain) =
      (Except.ok (),
       ⟨1, 1, 1, 0, 0, 0, ["a.ts"],
        [Event.selectFiles "r", Event.generateImplSpec,
         Event.analyze nullInstallPackagesMessage ["a.ts"],
         Event.editorInvoke fixErrorsEditorReq ["a.ts"],
         Event.vcsAddedFiles [],
         Event.compileExec "tsc -b" ⟨0, "built", ""⟩]⟩) := rfl

/-- The full run of `envFail`: round one throws on the null dereference,
round two edits once and compiles once (failing), and the workflow returns
with the diagnosis still set. -/
theorem envFail_run :
    workflowRun envFail "r" (some piPlain) =
      (Except.ok (),
       ⟨1, 1, 1, 0, 0, 0, ["a.ts"],
        [Event.selectFiles "r", Event.generateImplSpec,
         Event.analyze nullInstallPackagesMessage ["a.ts"],
         Event.editorInvoke fixErrorsEditorReq ["a.ts"],
         Event.vcsAddedFiles [],
         Event.compileExec "tsc -b" ⟨2, "boom", "errs"⟩,
         Event.analyze (compileOutputXml "tsc -b" "boom" "errs") ["a.ts"]]⟩) := rfl

/-- Claim C2 (code_bug): the spec says the baseline compile of the
unmodified tree runs exactly once, on the loop's first round only and before
the first editor invocation, and that a baseline failure feeds the error
analyzer like any first-round failure.  In the source, the first round
dereferences the still-`null` `errorAnalysis` at
`errorAnalysis.installPackages` (line 76) and throws before reaching the
baseline compile of line 83, so in every run the trace prefix before the
first editor invocation holds zero compile executions — the baseline compile
never executes, hence a baseline compile failure can never arise or be
analyzed.  On the concrete run in which every external call succeeds, the
whole trace holds exactly one compile execution (the post-edit one) and one
editor invocation, and the only analyzed diagnostic is the TypeError
message. -/
theorem claim2_baseline_compile_never_runs :
    (∀ (env : Env) (req : String) (pi : ProjectInfo),
      ((workflowTrace env req (some pi)).takeWhile (fun e => !e.isEditor)).countP
        Event.isCompile = 0) ∧
    (workflowTrace envOk "r" (some piPlain)).countP Event.isCompile = 1 ∧
    (workflowTrace envOk "r" (some piPlain)).countP Event.isEditor = 1 ∧
    Event.analyze nullInstallPackagesMessage ["a.ts"] ∈ workflowTrace envOk "r" (some piPlain) ∧
    (workflowRun envOk "r" (some piPlain)).1 = Except.ok () := by
  refine ⟨?_, ?_⟩
  · intro env req pi
    obtain ⟨pre, r, fs, rest, htr, hp⟩ := workflowTrace_first_editor env req pi
    rw [htr]
    exact countP_compile_takeWhile_eq_zero pre hp r fs rest
  · simp only [workflowTrace, envOk_run]
    decide

/-- Claim C3 (code_bug): the spec predicts exhaustion after exactly 2 editor
invocations and 3 compile executions when the compile command always fails.
Because round one throws on the `null` dereference of
`errorAnalysis.installPackages` before the baseline compile and before any
editor call, the actual run performs exactly 1 editor invocation and 1
compile execution, then stops with the diagnosis still set (no static
analysis, no commit, no test run). -/
theorem claim3_exhaustion_counts :
    (editCompileOutcome envFail "r" piPlain).isSome = true ∧
    (workflowTrace envFail "r" (some piPlain)).countP Event.isEditor = 1 ∧
    (workflowTrace envFail "r" (some piPlain)).countP Event.isCompile = 1 ∧
    (workflowTrace envFail "r" (some piPlain)).countP Event.isLint = 0 ∧
    (workflowTrace envFail "r" (some piPlain)).countP Event.isCommit = 0 ∧
    (workflowTrace envFail "r" (some piPlain)).countP Event.isTest = 0 := by
  simp only [workflowTrace, envFail_run]
  exact ⟨by decide, by decide, by decide, by decide, by decide, by decide⟩

/-- The summary text the source hands to `extractFilenames` on a non-final
failing static-analysis round: it interpolates the stale `compileErrorOutput`
from the edit-compile stage (always the round-one TypeError message on a run
that reached this stage), not the static-analysis output. -/
def staleStaticSummary : String :=
  nullInstallPackagesMessage ++ "\n\nExtract the filenames from the compile errors."

/-- The requirement text the source hands to the editor on a non-final
failing static-analysis round, likewise interpolating the stale
`compileErrorOutput`. -/
def staleStaticEditorReq : String :=
  "Static analysis command: eslint\n" ++ nullInstallPackagesMessage ++
    "\nFix these static analysis errors"

/-- The full run of `envLint`: after the compile stage, lint round one fails,
is committed, and the name extraction and editor request reuse the stale
compile-stage text; lint round two passes and is committed. -/
theorem envLint_run :
    workflowRun envLint "r" (some piLint) =
      (Except.ok (),
       ⟨1, 2, 1, 2, 1, 0, ["a.ts"],
        [Event.selectFiles "r", Event.generateImplSpec,
         Event.analyze nullInstallPackagesMessage ["a.ts"],
         Event.editorInvoke fixErrorsEditorReq ["a.ts"],
         Event.vcsAddedFiles [],
         Event.compileExec "tsc -b" ⟨0, "built", ""⟩,
         Event.lintExec "eslint" ⟨1, "LINT_PROBLEMS in xyz.ts", "le"⟩,
         Event.commitAll "Fix static analysis errors",
         Event.extractNames staleStaticSummary ["xyz.ts"],
         Event.editorInvoke staleStaticEditorReq ["xyz.ts"],
         Event.lintExec "eslint" ⟨0, "", ""⟩,
         Event.commitAll "Fix static analysis errors"]⟩) := rfl

/-- Claim C5 (code_bug): the spec says filenames are extracted from the
failed static-analysis run's diagnostic text and that the editor request
carries that same text.  The source's catch block never stores the caught
static-analysis error (`e` is unused); it reuses the stale
`compileErrorOutput` of the edit-compile stage.  On this run the one
filename-extraction call and the static-stage editor request carry the stale
TypeError text, not the lint output "LINT_PROBLEMS in xyz.ts" that the lint
execution produced. -/
theorem claim5_stale_diagnostics :
    Event.extractNames staleStaticSummary ["xyz.ts"] ∈ workflowTrace envLint "r" (some piLint) ∧
    Event.editorInvoke staleStaticEditorReq ["xyz.ts"] ∈ workflowTrace envLint "r" (some piLint) ∧
    (workflowTrace envLint "r" (some piLint)).countP Event.isExtract = 1 ∧
    Event.lintExec "eslint" ⟨1, "LINT_PROBLEMS in xyz.ts", "le"⟩ ∈
      workflowTrace envLint "r" (some piLint) ∧
    (workflowRun envLint "r" (some piLint)).1 = Except.ok () := by
  simp only [workflowTrace, envLint_run]
  decide

/-- Evaluation of the edit-compile stage of the `envTest` run. -/
theorem envTest_compile_stage :
    editCompileLoop envTest piTested envTest.implementationRequirements MAX_ATTEMPTS 0 none none
      { initSt with selected := initialFilesOf envTest,
                    trace := initSt.trace ++ [Event.selectFiles "r", Event.generateImplSpec] } =
      (Except.ok (none, some nullInstallPackagesMessage),
       ⟨1, 1, 1, 0, 0, 0, ["a.ts"],
        [Event.selectFiles "r", Event.generateImplSpec,
         Event.analyze nullInstallPackagesMessage ["a.ts"],
         Event.editorInvoke fixErrorsEditorReq ["a.ts"],
         Event.vcsAddedFiles [],
         Event.compileExec "tsc -b" ⟨0, "built", ""⟩]⟩) := rfl

/-- Evaluation of the post-compile stages of the `envTest` run: static
analysis is skipped, test round one fails and is analyzed, test round two
succeeds with the same file set. -/
theorem envTest_post_stage :
    postCompileLoopPhase envTest "r" piTested (none, some nullInstallPackagesMessage)
      ⟨1, 1, 1, 0, 0, 0, ["a.ts"],
       [Event.selectFiles "r", Event.generateImplSpec,
        Event.analyze nullInstallPackagesMessage ["a.ts"],
        Event.editorInvoke fixErrorsEditorReq ["a.ts"],
        Event.vcsAddedFiles [],
        Event.compileExec "tsc -b" ⟨0, "built", ""⟩]⟩ =
      (Except.ok (),
       ⟨3, 3, 1, 0, 0, 2, ["a.ts"],
        [Event.selectFiles "r", Event.generateImplSpec,
         Event.analyze nullInstallPackagesMessage ["a.ts"],
         Event.editorInvoke fixErrorsEditorReq ["a.ts"],
         Event.vcsAddedFiles [],
         Event.compileExec "tsc -b" ⟨0, "built", ""⟩,
         Event.editorInvoke testStageEditorReq ["a.ts"],
         Event.compileExec "tsc -b" ⟨0, "built", ""⟩,
         Event.testExec "unit-test" ⟨1, "FAIL case X", ""⟩,
         Event.analyze failingTestOutput ["a.ts"],
         Event.editorInvoke testStageEditorReq ["a.ts"],
         Event.compileExec "tsc -b" ⟨0, "built", ""⟩,
         Event.testExec "unit-test" ⟨0, "", ""⟩]⟩) := rfl

/-- The full run of `envTest`, assembled from the two stage evaluations. -/
theorem envTest_run :
    workflowRun envTest "r" (some piTested) =
      (Except.ok (),
       ⟨3, 3, 1, 0, 0, 2, ["a.ts"],
        [Event.selectFiles "r", Event.generateImplSpec,
         Event.analyze nullInstallPackagesMessage ["a.ts"],
         Event.editorInvoke fixErrorsEditorReq ["a.ts"],
         Event.vcsAddedFiles [],
         Event.compileExec "tsc -b" ⟨0, "built", ""⟩,
         Event.editorInvoke testStageEditorReq ["a.ts"],
         Event.compileExec "tsc -b" ⟨0, "built", ""⟩,
         Event.testExec "unit-test" ⟨1, "FAIL case X", ""⟩,
         Event.analyze failingTestOutput ["a.ts"],
         Event.editorInvoke testStageEditorReq ["a.ts"],
         Event.compileExec "tsc -b" ⟨0, "built", ""⟩,
         Event.testExec "unit-test" ⟨0, "", ""⟩]⟩) := by
  unfold workflowRun
  rw [runCodeEditWorkflow_some_apply]
  simp only [bind_apply]
  rw [envTest_compile_stage]
  exact envTest_post_stage

/-- Counterexample to claim C6: in this run the first test round fails, the
analysis of its output names the additional file `x.ts`, a second test round
runs (three editor invocations happen in total), yet no editor invocation of
the whole run ever includes `x.ts` — the test loop never feeds the
diagnosis's files back into the file set. -/
theorem claim6_counterexample :
    Event.analyze failingTestOutput ["a.ts"] ∈ workflowTrace envTest "r" (some piTested) ∧
    (envTest.analysis failingTestOutput ["a.ts"]).additionalFiles = some ["x.ts"] ∧
    (workflowTrace envTest "r" (some piTested)).countP
      (fun e => match e with
        | Event.editorInvoke _ fs => fs.contains "x.ts"
        | _ => false) = 0 ∧
    (workflowTrace envTest "r" (some piTested)).countP Event.isEditor = 3 ∧
    (workflowRun envTest "r" (some piTested)).1 = Except.ok () := by
  simp only [workflowTrace, envTest_run]
  decide

/-- Claim C6 (amended): when a test round fails, the diagnosis is computed
but not fed back into the file set — every test-round editor invocation uses
the current accumulated working file set unchanged.  After one test failure
whose diagnosis names one file, the workflow still completes with exactly 2
test-stage compile calls and 2 test-stage editor invocations (3 of each in
total, counting the single edit-compile-stage editor call and its post-edit
compile) and no thrown error, and all three editor invocations carry the
unchanged working file set. -/
theorem claim6_amended_diagnosis_unused :
    (workflowRun envTest "r" (some piTested)).1 = Except.ok () ∧
    (workflowTrace envTest "r" (some piTested)).countP Event.isTest = 2 ∧
    (workflowTrace envTest "r" (some piTested)).countP Event.isCompile = 3 ∧
    (workflowTrace envTest "r" (some piTested)).countP Event.isEditor = 3 ∧
    (workflowTrace envTest "r" (some piTested)).countP
      (fun e => match e with
        | Event.editorInvoke _ fs => fs == ["a.ts"]
        | _ => false) = 3 := by
  simp only [workflowTrace, envTest_run]
  decide

/-- The full run of `envGrow`: the diagnosis-named file `b.ts` reaches only
the compile-stage editor invocation; the persistent set stays `["a.ts"]`. -/
theorem envGrow_run :
    workflowRun envGrow "r" (some piTested) =
      (Except.ok (),
       ⟨2, 2, 1, 0, 0, 1, ["a.ts"],
        [Event.selectFiles "r", Event.generateImplSpec,
         Event.analyze nullInstallPackagesMessage ["a.ts"],
         Event.editorInvoke fixErrorsEditorReq ["a.ts", "b.ts"],
         Event.vcsAddedFiles [],
         Event.compileExec "tsc -b" ⟨0, "built", ""⟩,
         Event.editorInvoke testStageEditorReq ["a.ts"],
         Event.compileExec "tsc -b" ⟨0, "built", ""⟩,
         Event.testExec "unit-test" ⟨0, "", ""⟩]⟩) := rfl

/-- Counterexample to claim C7: the diagnosis names the additional file
`b.ts` and one editor invocation receives it, yet the persistent working
file set never grows by it — the later test-stage editor invocation receives
only `["a.ts"]` and the run ends with the working set equal to `["a.ts"]`.
So the working file set does not grow when a diagnosis names additional
files (or equivalently, the diagnosis-added entry is dropped again), contrary
to the claim. -/
theorem claim7_counterexample :
    Event.analyze nullInstallPackagesMessage ["a.ts"] ∈
      workflowTrace envGrow "r" (some piTested) ∧
    (envGrow.analysis nullInstallPackagesMessage ["a.ts"]).additionalFiles = some ["b.ts"] ∧
    (workflowTrace envGrow "r" (some piTested)).countP
      (fun e => match e with
        | Event.editorInvoke _ fs => fs.contains "b.ts"
        | _ => false) = 1 ∧
    (workflowTrace envGrow "r" (some piTested)).countP Event.isEditor = 2 ∧
    (workflowRun envGrow "r" (some piTested)).2.selected = ["a.ts"] ∧
    (workflowRun envGrow "r" (some piTested)).1 = Except.ok () := by
  simp only [workflowTrace, envGrow_run]
  decide

/-- On exit code zero the guarded throw returns normally; on a nonzero exit
code it throws the given diagnostic (process exit codes are natural numbers,
so the source's `exitCode > 0` test coincides with "nonzero"). -/
theorem exitCheck (r : CommandResult) (msg : String) :
    ((((if r.exitCode > 0 then Except.error msg else Except.ok ()) :
        Except String Unit) = Except.ok ()) ↔ r.exitCode = 0) ∧
    (r.exitCode ≠ 0 →
      ((if r.exitCode > 0 then Except.error msg else Except.ok ()) :
        Except String Unit) = Except.error msg) := by
  cases hr : r.exitCode with
  | zero => simp
  | succ n => simp

/-- The property claimed by C9 at a given oracle, project and state: each of
the compile, static-analysis and test primitives returns normally iff the
exit code of its command execution is zero, on a nonzero exit code throws
exactly the formatted output, and each formatted output embeds the captured
stdout and stderr verbatim. -/
def RaisesIffNonzero (env : Env) (pi : ProjectInfo) (s : St) : Prop :=
  (((compileM env pi s).1 = Except.ok ()) ↔ (env.compileResult s.compiles).exitCode = 0) ∧
  ((env.compileResult s.compiles).exitCode ≠ 0 →
    (compileM env pi s).1 = Except.error
      (compileOutputXml pi.compile (env.compileResult s.compiles).stdout
        (env.compileResult s.compiles).stderr)) ∧
  (∃ a b c, compileOutputXml pi.compile (env.compileResult s.compiles).stdout
      (env.compileResult s.compiles).stderr =
    a ++ (env.compileResult s.compiles).stdout ++ b ++
      (env.compileResult s.compiles).stderr ++ c) ∧
  (((runStaticAnalysis env pi s).1 = Except.ok ()) ↔ (env.lintResult s.lints).exitCode = 0) ∧
  ((env.lintResult s.lints).exitCode ≠ 0 →
    (runStaticAnalysis env pi s).1 = Except.error
      (staticAnalysisOutputXml pi.compile (env.lintResult s.lints).stdout
        (env.lintResult s.lints).stderr)) ∧
  (∃ a b c, staticAnalysisOutputXml pi.compile (env.lintResult s.lints).stdout
      (env.lintResult s.lints).stderr =
    a ++ (env.lintResult s.lints).stdout ++ b ++ (env.lintResult s.lints).stderr ++ c) ∧
  (((runTests env pi s).1 = Except.ok ()) ↔ (env.testResult s.tests).exitCode = 0) ∧
  ((env.testResult s.tests).exitCode ≠ 0 →
    (runTests env pi s).1 = Except.error
      (testOutputXml (interpUndef pi.test) (env.testResult s.tests).stdout
        (env.testResult s.tests).stderr)) ∧
  (∃ a b c, testOutputXml (interpUndef pi.test) (env.testResult s.tests).stdout
      (env.testResult s.tests).stderr =
    a ++ (env.testResult s.tests).stdout ++ b ++ (env.testResult s.tests).stderr ++ c)

/-- Claim C9: the compile, static-analysis and test primitives raise an
error carrying the captured stdout and stderr iff the exit code of the
underlying command execution is nonzero, and return normally on exit code
zero (the latter two whenever their command is configured, which is the only
case in which they execute a command at all). -/
theorem claim9_raise_iff_nonzero (env : Env) (pi : ProjectInfo) (s : St)
    (hst : truthy pi.staticAnalysis = true) (htst : truthy pi.test = true) :
    RaisesIffNonzero env pi s := by
  unfold RaisesIffNonzero
  rw [compileM_apply, runStaticAnalysis_apply env pi s hst, runTests_apply env pi s htst]
  dsimp only
  refine ⟨(exitCheck _ _).1, (exitCheck _ _).2, ?_, (exitCheck _ _).1, (exitCheck _ _).2, ?_,
    (exitCheck _ _).1, (exitCheck _ _).2, ?_⟩
  · exact ⟨"<compile_output>\n\t<command>" ++ pi.compile ++ "</command>\n\t<stdout>\n\t",
      "\n\t</stdout>\n\t<stderr>\n\t", "\n\t</stderr>\n</compile_output>", rfl⟩
  · exact ⟨"<static_analysis_output><command>" ++ pi.compile ++ "</command><stdout></stdout>",
      "<stderr>", "</stderr></static_analysis_output>", rfl⟩
  · exact ⟨"<test_output><command>" ++ interpUndef pi.test ++ "</command><stdout></stdout>",
      "<stderr>", "</stderr></test_output>", rfl⟩

/-- A project with both a static-analysis and a test command configured. -/
def piBoth : ProjectInfo := ⟨"dir", "tsc -b", some "eslint", some "unit-test"⟩

/-- Witness for C9 at a concrete oracle and project. -/
theorem claim9_witness :
    truthy piBoth.staticAnalysis = true ∧ truthy piBoth.test = true ∧
    RaisesIffNonzero envFail piBoth initSt :=
  ⟨by decide, by decide,
    claim9_raise_iff_nonzero envFail piBoth initSt (by decide) (by decide)⟩

theorem filterBlankFiles_cons_none (rest : List (Option String)) :
    filterBlankFiles (none :: rest) = filterBlankFiles rest := rfl

theorem filterBlankFiles_cons_some (g : String) (rest : List (Option String)) :
    filterBlankFiles (some g :: rest) =
      if g.trim.isEmpty then filterBlankFiles rest else g :: filterBlankFiles rest := by
  by_cases hg : g.trim.isEmpty <;> simp [filterBlankFiles, List.filterMap_cons, hg]

/-- Claim C10: `editFilesToMeetRequirements` drops null, empty and
whitespace-only entries before building the command, and the command embeds
exactly the non-blank file paths of the input, quoted, in their original
order. -/
theorem claim10_blank_entries_filtered (modelArg llmHistoryFile messageFilePath : String)
    (filesToEdit : List (Option String)) :
    filterBlankFiles filesToEdit =
      (filesToEdit.filterMap id).filter (fun f => !f.trim.isEmpty) ∧
    aiderCmd modelArg llmHistoryFile messageFilePath filesToEdit =
      "aider --no-check-update --yes " ++ modelArg ++ " --llm-history-file=\"" ++
        llmHistoryFile ++ "\" --message-file=" ++ messageFilePath ++ " " ++
      String.intercalate " "
        (((filesToEdit.filterMap id).filter (fun f => !f.trim.isEmpty)).map
          (fun file => "\"" ++ file ++ "\"")) := by
  have h : filterBlankFiles filesToEdit =
      (filesToEdit.filterMap id).filter (fun f => !f.trim.isEmpty) := by
    induction filesToEdit with
    | nil => rfl
    | cons f rest ih =>
        cases f with
        | none =>
            rw [filterBlankFiles_cons_none, ih]
            simp [List.filterMap_cons]
        | some g =>
            rw [filterBlankFiles_cons_some, ih]
            by_cases hg : g.trim.isEmpty <;>
              simp [List.filterMap_cons, List.filter_cons, hg]
  refine ⟨h, ?_⟩
  unfold aiderCmd
  rw [h]

/-- Claim C7 (amended): the persistent working file set starts from the
file-selection output (primary then secondary paths) and grows exactly by
the files the version control reports added by the editor's commits, in
order; diagnosis-named additional files are passed to a single editor
invocation only and never enter the persistent set, and nothing is ever
removed from it. -/
theorem claim7_amended_growth (env : Env) (req : String) (pi : ProjectInfo) :
    (workflowRun env req (some pi)).2.selected =
      initialFilesOf env ++ vcsAdded (workflowTrace env req (some pi)) := by
  unfold workflowTrace workflowRun
  rw [runCodeEditWorkflow_some_apply]
  obtain ⟨t, htr, hsel⟩ :=
    grows_bind
      (grows_editCompileLoop env pi env.implementationRequirements MAX_ATTEMPTS 0 none none)
      (fun r => grows_postCompileLoopPhase env req pi r)
      { initSt with selected := initialFilesOf env,
                    trace := initSt.trace ++ [Event.selectFiles req, Event.generateImplSpec] }
  rw [htr, hsel]
  simp [initSt, vcsAdded_append, vcsAdded]

end NousSwe
